import Mathlib

/-!
Verification of the link/graph-building pipeline of a static blog.

The pipeline consists of three Node scripts:
  * `scripts/generate-embeddings.ts` — reads posts, reuses cached embedding
    vectors keyed by slug, calls an external embedding capability for uncached
    posts, and rewrites the cache file.
  * `scripts/build-graph.ts` — the standalone similarity graph builder: reads
    the embeddings cache, computes all pairwise cosine similarities (strict
    length check: throws on mismatch), thresholds at 0.65, sorts descending,
    greedily assigns edges with a per-node cap of 5, and emits nodes/edges.
  * the links-data builder (in the same source bundle as
    `build-search-index.ts`) — parses `[[wiki-links]]` from post bodies, adds
    explicit edges for resolvable targets, computes per-post AI suggestions
    from embeddings (lenient cosine similarity: returns 0 on length mismatch),
    adds `ai` edges deduplicated against all existing edges, and assembles
    backlinks, nodes, and per-post metadata.

Numbers are modelled exactly:
  * arithmetic that the scripts perform on plain JS numbers is embedded over a
    linear ordered field (instantiated at ℚ for executable runs of the
    builders, and at ℝ with `Real.sqrt` for the analytic facts about cosine
    similarity);
  * `Math.sqrt` is a parameter `sqrt : α → α` of each definition that needs
    it, so the builders stay executable;
  * `Math.round(x * 100) / 100` is `round2` below (`Math.round` rounds half
    towards +∞, which is `⌊x + 1/2⌋`).

Fields of the TS records that no modelled computation reads (`date`,
`excerpt`/`content` in graph inputs, `updatedAt` on cache records, `version`
on the cache file, `generatedAt` on outputs, `postMeta`) are omitted; every
field that any modelled computation reads is present.
-/

namespace TechBlog

/-! ## Similarity engine

`cosineSimilarity` from `build-graph.ts` (strict: throws on length mismatch)
and from the links-data builder (lenient: returns 0 on length mismatch).
Both share the same core: one pass accumulating `dotProduct`, `normA`,
`normB`, a divide-by-zero guard returning 0, then
`dotProduct / (Math.sqrt(normA) * Math.sqrt(normB))`.
-/

/-- `dotProduct` accumulated by the loop `for i: dot += a[i]*b[i]`.
`dotProduct a a` is the accumulated `normA` (the squared Euclidean norm). -/
def dotProduct {α : Type} [LinearOrderedField α] (a b : List α) : α :=
  (List.zipWith (fun x y => x * y) a b).sum

/-- Shared core of both cosine-similarity functions: the divide-by-zero guard
(`if (normA === 0 || normB === 0) return 0`) followed by
`dotProduct / (Math.sqrt(normA) * Math.sqrt(normB))`. -/
def cosineCore {α : Type} [LinearOrderedField α] [DecidableEq α]
    (sqrt : α → α) (a b : List α) : α :=
  if dotProduct a a = 0 ∨ dotProduct b b = 0 then 0
  else dotProduct a b / (sqrt (dotProduct a a) * sqrt (dotProduct b b))

/-- Lenient `cosineSimilarity` of the links-data builder:
`if (a.length !== b.length) return 0;` then the shared core. -/
def cosineSimilarityLenient {α : Type} [LinearOrderedField α] [DecidableEq α]
    (sqrt : α → α) (a b : List α) : α :=
  if a.length ≠ b.length then 0 else cosineCore sqrt a b

/-- The exact message of the strict length-mismatch exception in
`build-graph.ts`. -/
def vectorLengthError : String := "Vectors must have the same length"

/-- Strict `cosineSimilarity` of `build-graph.ts`:
`if (a.length !== b.length) throw new Error(...)` then the shared core.
The thrown exception is modelled as `Except.error`. -/
def cosineSimilarityStrict {α : Type} [LinearOrderedField α] [DecidableEq α]
    (sqrt : α → α) (a b : List α) : Except String α :=
  if a.length ≠ b.length then .error vectorLengthError
  else .ok (cosineCore sqrt a b)

lemma dotProduct_self_nonneg {α : Type} [LinearOrderedField α] (v : List α) :
    0 ≤ dotProduct v v := by
  induction v with
  | nil => simp [dotProduct]
  | cons x xs ih =>
    simp only [dotProduct, List.zipWith_cons_cons, List.sum_cons] at *
    exact add_nonneg (mul_self_nonneg x) ih

lemma dotProduct_self_pos {α : Type} [LinearOrderedField α] (v : List α)
    (h : ∃ x ∈ v, x ≠ 0) : 0 < dotProduct v v := by
  induction v with
  | nil => simp at h
  | cons x xs ih =>
    simp only [dotProduct, List.zipWith_cons_cons, List.sum_cons]
    rcases h with ⟨y, hy, hy0⟩
    rcases List.mem_cons.mp hy with rfl | hmem
    · exact add_pos_of_pos_of_nonneg (mul_self_pos.mpr hy0) (dotProduct_self_nonneg xs)
    · exact add_pos_of_nonneg_of_pos (mul_self_nonneg x) (ih ⟨y, hmem, hy0⟩)

lemma real_sqrt_dotSelf_eq_zero_iff (a : List ℝ) :
    Real.sqrt (dotProduct a a) = 0 ↔ dotProduct a a = 0 := by
  rw [Real.sqrt_eq_zero (dotProduct_self_nonneg a)]

/-- **C8**: for equal-length real input vectors, both cosine-similarity
functions return `dot(a,b)` divided by the product of the two Euclidean
norms `√(dot a a) · √(dot b b)`, and return 0 whenever either input has zero
norm; the zero-norm branch is a guard, not an error (the strict variant
still returns `.ok`). -/
theorem cosine_similarity_formula_and_zero_norm_guard (a b : List ℝ)
    (h : a.length = b.length) :
    cosineSimilarityLenient Real.sqrt a b =
      (if Real.sqrt (dotProduct a a) = 0 ∨ Real.sqrt (dotProduct b b) = 0 then 0
       else dotProduct a b / (Real.sqrt (dotProduct a a) * Real.sqrt (dotProduct b b)))
    ∧ cosineSimilarityStrict Real.sqrt a b = .ok (cosineSimilarityLenient Real.sqrt a b) := by
  have hlen : ¬ a.length ≠ b.length := by simp [h]
  constructor
  · simp only [cosineSimilarityLenient, if_neg hlen, cosineCore,
      real_sqrt_dotSelf_eq_zero_iff]
  · simp only [cosineSimilarityStrict, cosineSimilarityLenient, if_neg hlen]

/-- Witness for C8 at the concrete vectors `[3,4]` and `[4,3]`. -/
theorem cosine_similarity_formula_and_zero_norm_guard_witness :
    cosineSimilarityLenient Real.sqrt [(3 : ℝ), 4] [4, 3] =
      (if Real.sqrt (dotProduct [(3 : ℝ), 4] [(3 : ℝ), 4]) = 0 ∨
          Real.sqrt (dotProduct [(4 : ℝ), 3] [(4 : ℝ), 3]) = 0 then 0
       else dotProduct [(3 : ℝ), 4] [4, 3] /
          (Real.sqrt (dotProduct [(3 : ℝ), 4] [(3 : ℝ), 4]) *
           Real.sqrt (dotProduct [(4 : ℝ), 3] [(4 : ℝ), 3])))
    ∧ cosineSimilarityStrict Real.sqrt [(3 : ℝ), 4] [4, 3] =
        .ok (cosineSimilarityLenient Real.sqrt [(3 : ℝ), 4] [4, 3]) :=
  cosine_similarity_formula_and_zero_norm_guard [3, 4] [4, 3] rfl

/-- **C9**: for every non-zero real vector `v` (some entry is non-zero),
`cosineSimilarity(v, v)` is exactly 1 — in lenient form it returns 1 and in
the strict form used by the standalone graph builder it returns `.ok 1`. -/
theorem cosine_similarity_self_eq_one (v : List ℝ) (h : ∃ x ∈ v, x ≠ 0) :
    cosineSimilarityLenient Real.sqrt v v = 1
    ∧ cosineSimilarityStrict Real.sqrt v v = .ok 1 := by
  have hpos : 0 < dotProduct v v := dotProduct_self_pos v h
  have hne : ¬ (dotProduct v v = 0 ∨ dotProduct v v = 0) := by
    simp [ne_of_gt hpos]
  have hcore : cosineCore Real.sqrt v v = 1 := by
    rw [cosineCore, if_neg hne, Real.mul_self_sqrt (le_of_lt hpos),
      div_self (ne_of_gt hpos)]
  refine ⟨?_, ?_⟩
  · simp [cosineSimilarityLenient, hcore]
  · simp [cosineSimilarityStrict, hcore]

/-- Witness for C9 at the concrete non-zero vector `[3,4]`. -/
theorem cosine_similarity_self_eq_one_witness :
    cosineSimilarityLenient Real.sqrt [(3 : ℝ), 4] [(3 : ℝ), 4] = 1
    ∧ cosineSimilarityStrict Real.sqrt [(3 : ℝ), 4] [(3 : ℝ), 4] = .ok 1 :=
  cosine_similarity_self_eq_one [3, 4] ⟨3, by simp, by norm_num⟩

/-! ## Wiki-link extraction

`parseWikiLinks` of the links-data builder: a loop over
`WIKI_LINK_REGEX = /\[\[([^\]|]+)(?:\|[^\]]+)?\]\]/g` that, for each match,
normalizes the captured target with `.trim().toLowerCase().replace(/\s+/g,'-')`
and pushes it unless already present.

The regex is embedded as a deterministic scanner: at each position the engine
attempts to match `[[`, a non-empty run of characters other than `]` and `|`
(the capture), optionally `|` followed by a non-empty run of characters other
than `]`, and the closer `]]`; on failure it advances one character, on
success it resumes after the match. Greedy maximal munch is exact here
because each character class excludes the character that must follow it, so no
backtracking can succeed where the maximal run fails.
-/

/-- Characters matched by the capture class `[^\]|]`. -/
def wikiTargetChar (c : Char) : Bool := c != ']' && c != '|'

/-- Characters matched by the display-text class `[^\]]`. -/
def wikiDisplayChar (c : Char) : Bool := c != ']'

/-- Attempt to match the regex tail `([^\]|]+)(?:\|[^\]]+)?\]\]` against the
input just after an opening `[[`. Returns the captured target and the rest of
the input after the match. -/
def matchWikiAt (rest : List Char) : Option (List Char × List Char) :=
  let t := rest.takeWhile wikiTargetChar
  let r := rest.dropWhile wikiTargetChar
  if t.isEmpty then none
  else
    match r with
    | ']' :: ']' :: r2 => some (t, r2)
    | '|' :: r2 =>
      let d := r2.takeWhile wikiDisplayChar
      let r3 := r2.dropWhile wikiDisplayChar
      if d.isEmpty then none
      else
        match r3 with
        | ']' :: ']' :: r4 => some (t, r4)
        | _ => none
    | _ => none

lemma matchWikiAt_length {rest t r2 : List Char}
    (h : matchWikiAt rest = some (t, r2)) : r2.length < rest.length := by
  have hsplit : (rest.takeWhile wikiTargetChar).length +
      (rest.dropWhile wikiTargetChar).length = rest.length := by
    rw [← List.length_append, List.takeWhile_append_dropWhile]
  unfold matchWikiAt at h
  by_cases ht : (rest.takeWhile wikiTargetChar).isEmpty
  · simp [ht] at h
  · rw [if_neg (by simpa using ht)] at h
    have htlen : 1 ≤ (rest.takeWhile wikiTargetChar).length := by
      cases hw : rest.takeWhile wikiTargetChar with
      | nil => rw [hw] at ht; simp at ht
      | cons a l => simp [hw]
    split at h
    · rename_i r2' heq
      injection h with h'
      injection h' with h1 h2
      subst h2
      rw [heq] at hsplit
      simp only [List.length_cons] at hsplit
      omega
    · rename_i rr heq
      have hsplit2 : (rr.takeWhile wikiDisplayChar).length +
          (rr.dropWhile wikiDisplayChar).length = rr.length := by
        rw [← List.length_append, List.takeWhile_append_dropWhile]
      by_cases hd : (rr.takeWhile wikiDisplayChar).isEmpty
      · simp [hd] at h
      · rw [if_neg (by simpa using hd)] at h
        have hdlen : 1 ≤ (rr.takeWhile wikiDisplayChar).length := by
          cases hw : rr.takeWhile wikiDisplayChar with
          | nil => rw [hw] at hd; simp at hd
          | cons a l => simp [hw]
        split at h
        · rename_i r4 heq2
          injection h with h'
          injection h' with h1 h2
          subst h2
          rw [heq] at hsplit
          rw [heq2] at hsplit2
          simp only [List.length_cons] at hsplit hsplit2
          omega
        · exact absurd h (by simp)
    · exact absurd h (by simp)

def scanWiki : List Char → List (List Char)
  | [] => []
  | '[' :: '[' :: rest =>
    match h : matchWikiAt rest with
    | some (t, rest2) => t :: scanWiki rest2
    | none => scanWiki ('[' :: rest)
  | _ :: rest => scanWiki rest
termination_by cs => cs.length
decreasing_by
  · simp only [List.length_cons]
    have := matchWikiAt_length h
    omega
  · simp only [List.length_cons]; omega
  · simp only [List.length_cons]; omega

def isJsWhitespace (c : Char) : Bool :=
  c == ' ' || c == '\t' || c == '\n' || c == '\r' ||
  c == Char.ofNat 11 || c == Char.ofNat 12

def trimChars (t : List Char) : List Char :=
  (((t.dropWhile isJsWhitespace).reverse).dropWhile isJsWhitespace).reverse

def collapseWhitespace : List Char → List Char
  | [] => []
  | c :: rest =>
    if isJsWhitespace c then '-' :: collapseWhitespace (rest.dropWhile isJsWhitespace)
    else c :: collapseWhitespace rest
termination_by l => l.length
decreasing_by
  · simp only [List.length_cons]
    have := (rest.dropWhile_sublist isJsWhitespace).length_le
    omega
  · simp

def normalizeTarget (t : List Char) : String :=
  String.mk (collapseWhitespace ((trimChars t).map Char.toLower))

def parseLoop : List Char → List String → List String
  | [], links => links
  | '[' :: '[' :: rest, links =>
    match h : matchWikiAt rest with
    | some (t, rest2) =>
      parseLoop rest2
        (let target := normalizeTarget t
         if links.contains target then links else links ++ [target])
    | none => parseLoop ('[' :: rest) links
  | _ :: rest, links => parseLoop rest links
termination_by cs _ => cs.length
decreasing_by
  · simp only [List.length_cons]
    have := matchWikiAt_length h
    omega
  · simp only [List.length_cons]; omega
  · simp only [List.length_cons]; omega

def parseWikiLinks (content : String) : List String :=
  parseLoop content.data []

def dedupKeepFirst (l : List String) : List String :=
  l.foldl (fun acc t => if acc.contains t then acc else acc ++ [t]) []

lemma parseLoop_eq_foldl (cs : List Char) :
    ∀ links : List String,
      parseLoop cs links =
        ((scanWiki cs).map normalizeTarget).foldl
          (fun acc t => if acc.contains t then acc else acc ++ [t]) links := by
  induction cs using scanWiki.induct with
  | case1 => intro links; simp [parseLoop, scanWiki]
  | case2 rest t rest2 h ih =>
    intro links
    rw [parseLoop, scanWiki]
    split
    · rename_i t2 rest3 heq
      rw [h] at heq
      injection heq with e
      injection e with e1 e2
      subst e1; subst e2
      simp only [List.map_cons, List.foldl_cons]
      exact ih _
    · rename_i heq
      rw [h] at heq
      exact absurd heq (by simp)
  | case3 rest h ih =>
    intro links
    rw [parseLoop, scanWiki]
    split
    · rename_i t2 rest3 heq
      rw [h] at heq
      exact absurd heq (by simp)
    · exact ih links
  | case4 head rest hne ih =>
    intro links
    rw [parseLoop.eq_3 links head rest hne, scanWiki.eq_3 head rest hne]
    exact ih links

lemma foldl_push_nodup (l : List String) :
    ∀ acc : List String, acc.Nodup →
      (l.foldl (fun acc t => if acc.contains t then acc else acc ++ [t]) acc).Nodup := by
  induction l with
  | nil => intro acc h; simpa using h
  | cons t l ih =>
    intro acc hacc
    simp only [List.foldl_cons]
    by_cases hc : acc.contains t
    · rw [if_pos hc]; exact ih acc hacc
    · rw [if_neg hc]
      refine ih _ ?_
      have hmem : t ∉ acc := by simpa using hc
      simp [List.nodup_append, hacc, hmem]

/-- **C7**: `parseWikiLinks` scans the body for `[[target]]` /
`[[target|display-text]]` references (the `scanWiki` embedding of
`WIKI_LINK_REGEX`), normalizes each captured target to lower case with
whitespace runs collapsed to hyphens (`normalizeTarget`), and deduplicates
targets within a single document while preserving first-occurrence order
(`dedupKeepFirst`); consequently the result has no duplicates. -/
theorem parse_wiki_links_scan_normalize_dedup (content : String) :
    parseWikiLinks content =
      dedupKeepFirst ((scanWiki content.data).map normalizeTarget)
    ∧ (parseWikiLinks content).Nodup := by
  have h := parseLoop_eq_foldl content.data []
  constructor
  · exact h
  · rw [parseWikiLinks, h]
    exact foldl_push_nodup _ [] List.nodup_nil

/-! ## Embedding generator

`generate-embeddings.ts`: reads the posts, loads the cache, and for each
current post either reuses the cached record for its slug or calls the
embedding capability (modelled as `f : String → Except String (List ℚ)`;
an error is the logged-and-skipped per-post failure). The resulting list is
what `main` writes back to the cache file in its single final write.
-/

/-- A post as read by `readPosts` in `generate-embeddings.ts`. -/
structure PostMeta where
  slug : String
  title : String
  tags : List String
  excerpt : Option String
deriving DecidableEq

/-- One record of the embeddings cache (`updatedAt` omitted — unread). -/
structure EmbeddingData where
  slug : String
  title : String
  tags : List String
  embedding : List ℚ
deriving DecidableEq

/-- `prepareTextForEmbedding`: `[title, tags.join(' ')]`, plus the excerpt when
it is truthy (present and non-empty), joined by `' | '`. -/
def prepareTextForEmbedding (p : PostMeta) : String :=
  let parts := [p.title, String.intercalate " " p.tags] ++
    (match p.excerpt with
     | some e => if e = "" then [] else [e]
     | none => [])
  String.intercalate " | " parts

/-- `cachedEmbeddings.get(slug)` where the map was filled by
`cachedEmbeddings.set(post.slug, post)` over the cache records in order
(later records with the same slug overwrite earlier ones). -/
def lookupSlug (recs : List EmbeddingData) (s : String) : Option EmbeddingData :=
  recs.foldl (fun acc r => if r.slug = s then some r else acc) none

/-- The per-post loop of `main` in `generate-embeddings.ts`: reuse the cached
record when present, otherwise call the embedding capability `f` (a failure is
logged and the post skipped), accumulating `newEmbeddings` in post order. -/
def genLoop (f : String → Except String (List ℚ)) (cacheRecs : List EmbeddingData) :
    List PostMeta → List EmbeddingData
  | [] => []
  | p :: rest =>
    match lookupSlug cacheRecs p.slug with
    | some c => c :: genLoop f cacheRecs rest
    | none =>
      match f (prepareTextForEmbedding p) with
      | .ok emb => ⟨p.slug, p.title, p.tags, emb⟩ :: genLoop f cacheRecs rest
      | .error _ => genLoop f cacheRecs rest

/-- `main` of `generate-embeddings.ts` as a function from the current posts,
the loaded cache (`none` when the cache file is missing or unparsable) and the
embedding capability to the record list written back to the cache file.
With no posts the script writes an empty cache before even loading the old
one; `genLoop` returns `[]` there as well. -/
def generateEmbeddings (f : String → Except String (List ℚ))
    (posts : List PostMeta) (cache : Option (List EmbeddingData)) :
    List EmbeddingData :=
  genLoop f (match cache with | some recs => recs | none => []) posts

lemma lookupSlug_slug {recs : List EmbeddingData} {s : String} {r : EmbeddingData} :
    lookupSlug recs s = some r → r.slug = s := by
  suffices h : ∀ acc : Option EmbeddingData, (∀ x, acc = some x → x.slug = s) →
      (recs.foldl (fun acc r => if r.slug = s then some r else acc) acc) = some r → r.slug = s by
    exact h none (by simp)
  induction recs with
  | nil => intro acc hacc h; exact hacc r h
  | cons q rest ih =>
    intro acc hacc h
    simp only [List.foldl_cons] at h
    refine ih _ ?_ h
    intro x hx
    by_cases hq : q.slug = s
    · rw [if_pos hq] at hx; injection hx with e; rw [← e]; exact hq
    · rw [if_neg hq] at hx; exact hacc x hx

lemma lookupSlug_foldl_isSome (s : String) (recs : List EmbeddingData) :
    ∀ acc : Option EmbeddingData, (acc.isSome ∨ s ∈ recs.map EmbeddingData.slug) →
      (recs.foldl (fun acc r => if r.slug = s then some r else acc) acc).isSome := by
  induction recs with
  | nil =>
    intro acc hacc
    rcases hacc with h1 | h1
    · simpa using h1
    · simp at h1
  | cons q rest ih =>
    intro acc hacc
    simp only [List.foldl_cons]
    by_cases hq : q.slug = s
    · exact ih _ (Or.inl (by simp [if_pos hq]))
    · refine ih _ ?_
      rcases hacc with h1 | h1
      · exact Or.inl (by simpa [if_neg hq] using h1)
      · simp only [List.map_cons, List.mem_cons] at h1
        rcases h1 with h1 | h1
        · exact absurd h1.symm hq
        · exact Or.inr h1

lemma lookupSlug_isSome {recs : List EmbeddingData} {s : String}
    (h : s ∈ recs.map EmbeddingData.slug) : (lookupSlug recs s).isSome :=
  lookupSlug_foldl_isSome s recs none (Or.inr h)

lemma genLoop_slug_mem_of_cached (f : String → Except String (List ℚ))
    (cacheRecs : List EmbeddingData) (posts : List PostMeta) (s : String)
    (hcache : s ∈ cacheRecs.map EmbeddingData.slug)
    (hpost : s ∈ posts.map PostMeta.slug) :
    s ∈ (genLoop f cacheRecs posts).map EmbeddingData.slug := by
  induction posts with
  | nil => simp at hpost
  | cons p rest ih =>
    simp only [List.map_cons, List.mem_cons] at hpost
    rcases hpost with hp | hp
    · rcases ho : lookupSlug cacheRecs p.slug with _ | c
      · exfalso
        have hs : (lookupSlug cacheRecs s).isSome := lookupSlug_isSome hcache
        rw [hp, ho] at hs
        simp at hs
      · rw [genLoop, ho]
        simp only [List.map_cons, List.mem_cons]
        exact Or.inl (by rw [lookupSlug_slug ho, hp])
    · have hrest := ih hp
      rw [genLoop]
      rcases ho : lookupSlug cacheRecs p.slug with _ | c
      · rcases hf : f (prepareTextForEmbedding p) with e | emb
        · simpa using hrest
        · simpa using Or.inr hrest
      · simpa using Or.inr hrest

lemma genLoop_slug_sub (f : String → Except String (List ℚ))
    (cacheRecs : List EmbeddingData) (posts : List PostMeta) (s : String)
    (h : s ∈ (genLoop f cacheRecs posts).map EmbeddingData.slug) :
    s ∈ posts.map PostMeta.slug := by
  induction posts with
  | nil => simp [genLoop] at h
  | cons p rest ih =>
    rw [genLoop] at h
    simp only [List.map_cons, List.mem_cons]
    rcases ho : lookupSlug cacheRecs p.slug with _ | c
    · rw [ho] at h
      rcases hf : f (prepareTextForEmbedding p) with e | emb
      · rw [hf] at h; exact Or.inr (ih h)
      · rw [hf] at h
        simp only [List.map_cons, List.mem_cons] at h
        rcases h with h | h
        · exact Or.inl h
        · exact Or.inr (ih h)
    · rw [ho] at h
      simp only [List.map_cons, List.mem_cons] at h
      rcases h with h | h
      · exact Or.inl (by rw [← lookupSlug_slug ho, h])
      · exact Or.inr (ih h)

/-- **C3** counterexample: a run of the embedding generator with cache record
slug "ghost" and current posts `["a"]` writes a cache containing only "a" —
the "ghost" record present at the start of the run is dropped, refuting
"for every slug present in the loaded embeddings cache at the start of a run,
a record for that slug is still present in the cache file after the run". -/
theorem embeddings_cache_drops_stale_slug_cex :
    generateEmbeddings (fun _ => .ok [1]) [⟨"a", "A", [], none⟩]
      (some [⟨"ghost", "Ghost", [], [1, 2]⟩]) = [⟨"a", "A", [], [1]⟩]
    ∧ "ghost" ∈ ([⟨"ghost", "Ghost", [], [1, 2]⟩] : List EmbeddingData).map EmbeddingData.slug
    ∧ "ghost" ∉ (generateEmbeddings (fun _ => .ok [1]) [⟨"a", "A", [], none⟩]
      (some [⟨"ghost", "Ghost", [], [1, 2]⟩])).map EmbeddingData.slug := by
  refine ⟨?_, by decide, by decide⟩
  decide

/-- **C3** (amended): a cached slug survives a completed run of the embedding
generator if and only if it belongs to a current post: every cached slug that
is also a current post slug is still present in the written cache (cached
records are reused verbatim, even when the embedding call would fail), and
every slug in the written cache is a current post slug — so cached records
whose post was deleted are dropped when the cache file is rewritten. (A run
that dies before the single final write leaves the old cache file untouched;
the write itself is all-or-nothing and outside this model.) -/
theorem embeddings_cache_keeps_exactly_current_post_slugs
    (f : String → Except String (List ℚ))
    (posts : List PostMeta) (cache : Option (List EmbeddingData)) (s : String) :
    (s ∈ (match cache with | some recs => recs | none => []).map EmbeddingData.slug →
      s ∈ posts.map PostMeta.slug →
      s ∈ (generateEmbeddings f posts cache).map EmbeddingData.slug)
    ∧ (s ∈ (generateEmbeddings f posts cache).map EmbeddingData.slug →
      s ∈ posts.map PostMeta.slug) := by
  constructor
  · intro h1 h2
    exact genLoop_slug_mem_of_cached f _ posts s h1 h2
  · intro h
    exact genLoop_slug_sub f _ posts s h

/-- Witness for the amended C3: slug "a" is cached, its post still exists, the
embedding capability fails — the record survives via the cache. -/
theorem embeddings_cache_keeps_exactly_current_post_slugs_witness :
    "a" ∈ (generateEmbeddings (fun _ => .error "fail") [⟨"a", "A", [], none⟩]
      (some [⟨"a", "A", [], [5]⟩])).map EmbeddingData.slug :=
  (embeddings_cache_keeps_exactly_current_post_slugs (fun _ => .error "fail")
    [⟨"a", "A", [], none⟩] (some [⟨"a", "A", [], [5]⟩]) "a").1 (by decide) (by decide)

/-! ## Standalone similarity graph builder

`build-graph.ts`: all pairwise strict cosine similarities of the cache
records (`for i; for j = i+1`), threshold 0.65, sort descending by
similarity (JS `Array.prototype.sort` is stable; the comparator is
`b.similarity - a.similarity`), then greedy edge assignment subject to
`MAX_EDGES_PER_NODE = 5` on both endpoints, tracked per record index in
`connectionCount`. The uncaught strict length-mismatch exception is the
`Except.error` of the whole build.
-/

/-- `SIMILARITY_THRESHOLD = 0.65` (both builders). -/
def simThreshold : ℚ := 13 / 20

/-- `MAX_EDGES_PER_NODE = 5`. -/
def maxEdgesPerNode : Nat := 5

/-- `MAX_AI_SUGGESTIONS = 5`. -/
def maxAISuggestions : Nat := 5

/-- JS `Math.round` (round half towards +∞). -/
def jsRound (q : ℚ) : ℤ := ⌊q + 1 / 2⌋

/-- `Math.round(q * 100) / 100`. -/
def round2 (q : ℚ) : ℚ := (jsRound (q * 100) : ℚ) / 100

/-- One qualifying pair `{i, j, similarity}` of `build-graph.ts`. -/
structure SimTriple where
  i : Nat
  j : Nat
  similarity : ℚ
deriving DecidableEq

/-- The index pairs visited by `for (i = 0..n-1) for (j = i+1..n-1)`,
in visit order. -/
def pairIdx (n : Nat) : List (Nat × Nat) :=
  (List.range n).flatMap (fun i =>
    ((List.range n).filter (fun j => i < j)).map (fun j => (i, j)))

/-- Out-of-range access placeholder (never used on the in-range indices
produced by `pairIdx`). -/
def defaultEmbeddingData : EmbeddingData := ⟨"", "", [], []⟩

/-- `posts[i].embedding`. -/
def embAt (posts : List EmbeddingData) (i : Nat) : List ℚ :=
  (posts.getD i defaultEmbeddingData).embedding

/-- `posts[i].slug`. -/
def slugAt (posts : List EmbeddingData) (i : Nat) : String :=
  (posts.getD i defaultEmbeddingData).slug

/-- The similarity-collection double loop of `build-graph.ts`: strict cosine
similarity for each index pair in order, pushing `{i, j, similarity}` when
`similarity >= SIMILARITY_THRESHOLD`; a thrown mismatch aborts everything. -/
def collectSimsAux (sqrt : ℚ → ℚ) (posts : List EmbeddingData) :
    List (Nat × Nat) → Except String (List SimTriple)
  | [] => .ok []
  | (i, j) :: rest =>
    match cosineSimilarityStrict sqrt (embAt posts i) (embAt posts j) with
    | .error e => .error e
    | .ok s =>
      match collectSimsAux sqrt posts rest with
      | .error e => .error e
      | .ok ts => .ok (if simThreshold ≤ s then ⟨i, j, s⟩ :: ts else ts)

/-- The `similarities` list of `build-graph.ts` (or the uncaught exception). -/
def collectSims (sqrt : ℚ → ℚ) (posts : List EmbeddingData) :
    Except String (List SimTriple) :=
  collectSimsAux sqrt posts (pairIdx posts.length)

/-- Stable insertion for the descending sort: `x` goes after every element
with `similarity ≥ x.similarity`. -/
def insertSimDesc (x : SimTriple) : List SimTriple → List SimTriple
  | [] => [x]
  | y :: ys => if x.similarity ≤ y.similarity then y :: insertSimDesc x ys
               else x :: y :: ys

/-- `similarities.sort((a, b) => b.similarity - a.similarity)` — a stable
descending sort by similarity. -/
def sortSimsDesc (l : List SimTriple) : List SimTriple :=
  l.foldl (fun acc x => insertSimDesc x acc) []

/-- One step of the greedy assignment: add the pair only if both endpoints
are under the cap, reading both counts before either update (so the two
`connectionCount.set` calls add 1 to each endpoint). -/
def greedyStep (acc : List SimTriple × (Nat → Nat)) (t : SimTriple) :
    List SimTriple × (Nat → Nat) :=
  if acc.2 t.i < maxEdgesPerNode ∧ acc.2 t.j < maxEdgesPerNode then
    (acc.1 ++ [t], fun n => if n = t.i ∨ n = t.j then acc.2 n + 1 else acc.2 n)
  else acc

/-- The greedy edge-assignment loop over the sorted qualifying pairs,
returning the chosen pairs and the final `connectionCount`. -/
def greedyAssign (ts : List SimTriple) : List SimTriple × (Nat → Nat) :=
  ts.foldl greedyStep ([], fun _ => 0)

/-- An edge of `graph-data.json`. -/
structure GraphEdge where
  source : String
  target : String
  weight : ℚ
deriving DecidableEq

/-- A node of either output artifact. -/
structure GraphNode where
  id : String
  title : String
  tags : List String
  group : Nat
  connections : Nat
deriving DecidableEq

/-- `graph-data.json` (the `generatedAt` timestamp is omitted). -/
structure GraphData where
  nodes : List GraphNode
  edges : List GraphEdge
deriving DecidableEq

/-- `assignGroup`: group 0 for an empty tag list; otherwise the index of the
primary (first) tag in the insertion-ordered `tagGroups` map, inserting it
with index `tagGroups.size` when absent. The map is modelled as the
insertion-ordered list of its keys. -/
def assignGroup (tags : List String) (tagGroups : List String) :
    Nat × List String :=
  match tags with
  | [] => (0, tagGroups)
  | t :: _ =>
    if tagGroups.contains t then (tagGroups.indexOf t, tagGroups)
    else (tagGroups.length, tagGroups ++ [t])

/-- One step of the node-building map of `build-graph.ts`: the accumulator is
(nodes so far, `tagGroups` keys in insertion order, running index). -/
def graphNodesStep (cnt : Nat → Nat)
    (acc : List GraphNode × List String × Nat) (post : EmbeddingData) :
    List GraphNode × List String × Nat :=
  let g := assignGroup post.tags acc.2.1
  (acc.1 ++ [⟨post.slug, post.title, post.tags, g.1, cnt acc.2.2⟩],
   g.2, acc.2.2 + 1)

/-- `posts.map((post, index) => ...)` building the node list of
`build-graph.ts`, with `connections = connectionCount.get(index) || 0`. -/
def buildGraphNodes (posts : List EmbeddingData) (cnt : Nat → Nat) :
    List GraphNode :=
  (posts.foldl (graphNodesStep cnt) ([], [], 0)).1

/-- The chosen similarity pairs of a `build-graph.ts` run: the value of
`edges` before slugs/weights are substituted in. -/
def graphTriples (sqrt : ℚ → ℚ) (posts : List EmbeddingData) :
    Except String (List SimTriple) :=
  match collectSims sqrt posts with
  | .error e => .error e
  | .ok ts => .ok (greedyAssign (sortSimsDesc ts)).1

/-- A chosen pair as the emitted edge
`{source: posts[i].slug, target: posts[j].slug, weight: round2 sim}`. -/
def mkGraphEdge (posts : List EmbeddingData) (t : SimTriple) : GraphEdge :=
  ⟨slugAt posts t.i, slugAt posts t.j, round2 t.similarity⟩

/-- `main` of `build-graph.ts` as a function from the loaded embeddings cache
to the written `graph-data.json` (or the uncaught exception). An empty cache
writes the empty graph before computing anything. -/
def buildGraph (sqrt : ℚ → ℚ) (posts : List EmbeddingData) :
    Except String GraphData :=
  if posts.isEmpty then .ok ⟨[], []⟩
  else
    match collectSims sqrt posts with
    | .error e => .error e
    | .ok ts =>
      let gr := greedyAssign (sortSimsDesc ts)
      .ok ⟨buildGraphNodes posts gr.2, gr.1.map (mkGraphEdge posts)⟩

/-- Number of chosen pairs touching node index `n`. -/
def countTouching (ts : List SimTriple) (n : Nat) : Nat :=
  (ts.filter (fun t => n = t.i ∨ n = t.j)).length

lemma mem_pairIdx {n i j : Nat} : (i, j) ∈ pairIdx n ↔ i < j ∧ j < n := by
  simp only [pairIdx, List.mem_flatMap, List.mem_map, List.mem_filter,
    List.mem_range, decide_eq_true_eq, Prod.mk.injEq]
  constructor
  · rintro ⟨a, ha, b, ⟨hb, hab⟩, rfl, rfl⟩
    exact ⟨hab, hb⟩
  · rintro ⟨hij, hjn⟩
    exact ⟨i, lt_trans hij hjn, j, ⟨hjn, hij⟩, rfl, rfl⟩


lemma cosineSimilarityStrict_error_msg {sqrt : ℚ → ℚ} {a b : List ℚ} {e : String}
    (h : cosineSimilarityStrict sqrt a b = .error e) : e = vectorLengthError := by
  unfold cosineSimilarityStrict at h
  split at h
  · injection h with h1
    exact h1.symm
  · exact absurd h (by simp)

lemma collectSimsAux_error (sqrt : ℚ → ℚ) (posts : List EmbeddingData) :
    ∀ prs : List (Nat × Nat),
      (∃ pr ∈ prs, (embAt posts pr.1).length ≠ (embAt posts pr.2).length) →
      collectSimsAux sqrt posts prs = .error vectorLengthError := by
  intro prs
  induction prs with
  | nil => rintro ⟨pr, hpr, -⟩; simp at hpr
  | cons hd rest ih =>
    rintro ⟨pr, hpr, hne⟩
    rcases hd with ⟨i, j⟩
    rcases List.mem_cons.mp hpr with rfl | hmem
    · rw [collectSimsAux, cosineSimilarityStrict, if_pos hne]
    · rw [collectSimsAux]
      rcases hstrict : cosineSimilarityStrict sqrt (embAt posts i) (embAt posts j)
        with e | s
      · rw [cosineSimilarityStrict_error_msg hstrict]
      · rw [ih ⟨pr, hmem, hne⟩]

/-- **C4** counterexample: a cache with embeddings `[1]` and `[1, 0]` of
unequal length makes the whole standalone graph build return the uncaught
`"Vectors must have the same length"` exception — no graph at all is
produced, refuting "in the strict mode used by the standalone graph builder
only the specific comparison/pair fails — the rest of the run still
completes". -/
theorem strict_mismatch_aborts_whole_run_cex :
    buildGraph (fun _ => 0)
      [⟨"a", "A", [], [1]⟩, ⟨"b", "B", [], [1, 0]⟩] = .error vectorLengthError := by
  rfl

/-- **C4** (amended): behavior on unequal-length vectors is mode-dependent as
claimed for the lenient mode — the lenient `cosineSimilarity` used by the
unified links builder returns 0 for that comparison — but in the strict mode
used by the standalone graph builder the thrown `DimensionMismatch` exception
is not caught by the pair loop, so a single mismatching pair aborts the
entire standalone graph build with `"Vectors must have the same length"`
instead of failing only that pair. -/
theorem dimension_mismatch_mode_dependent (sqrt : ℚ → ℚ) (a b : List ℚ)
    (hab : a.length ≠ b.length) (sqrt2 : ℚ → ℚ) (gposts : List EmbeddingData)
    (pr : Nat × Nat) (hpr : pr ∈ pairIdx gposts.length)
    (hne : (embAt gposts pr.1).length ≠ (embAt gposts pr.2).length) :
    cosineSimilarityLenient sqrt a b = 0
    ∧ buildGraph sqrt2 gposts = .error vectorLengthError := by
  constructor
  · rw [cosineSimilarityLenient, if_pos hab]
  · have hne' : gposts ≠ [] := by
      rcases pr with ⟨i, j⟩
      intro hnil
      rw [hnil] at hpr
      have := (mem_pairIdx (n := ([] : List EmbeddingData).length)).mp hpr
      simp at this
    have hempty : gposts.isEmpty = false := by
      rcases gposts with _ | ⟨p, rest⟩
      · exact absurd rfl hne'
      · rfl
    rw [buildGraph, hempty]
    simp only [Bool.false_eq_true, if_false]
    rw [collectSims, collectSimsAux_error sqrt2 gposts _ ⟨pr, hpr, hne⟩]

/-- Witness for the amended C4: lenient comparison of `[1]` with `[1, 0]`
is 0, and the two-record cache with those embeddings aborts the standalone
build. -/
theorem dimension_mismatch_mode_dependent_witness :
    cosineSimilarityLenient (fun _ => 0) [(1 : ℚ)] [1, 0] = 0
    ∧ buildGraph (fun _ => 0)
        [⟨"a", "A", [], [1]⟩, ⟨"b", "B", [], [1, 0]⟩] = .error vectorLengthError :=
  dimension_mismatch_mode_dependent (fun _ => 0) [1] [1, 0] (by decide)
    (fun _ => 0) [⟨"a", "A", [], [1]⟩, ⟨"b", "B", [], [1, 0]⟩]
    (0, 1) (by decide) (by decide)


lemma insertSimDesc_perm (x : SimTriple) (l : List SimTriple) :
    List.Perm (insertSimDesc x l) (x :: l) := by
  induction l with
  | nil => rfl
  | cons y ys ih =>
    rw [insertSimDesc]
    by_cases hc : x.similarity ≤ y.similarity
    · rw [if_pos hc]
      exact (ih.cons y).trans (List.Perm.swap x y ys)
    · rw [if_neg hc]

lemma foldl_insertSimDesc_perm (l : List SimTriple) :
    ∀ acc : List SimTriple,
      List.Perm (l.foldl (fun acc x => insertSimDesc x acc) acc) (acc ++ l) := by
  induction l with
  | nil => intro acc; simp
  | cons x rest ih =>
    intro acc
    simp only [List.foldl_cons]
    refine (ih (insertSimDesc x acc)).trans ?_
    refine (List.Perm.append_right rest (insertSimDesc_perm x acc)).trans ?_
    exact List.perm_middle.symm

lemma sortSimsDesc_perm (l : List SimTriple) : List.Perm (sortSimsDesc l) l := by
  simpa using foldl_insertSimDesc_perm l []

lemma greedyFold_append (l : List SimTriple) :
    ∀ acc : List SimTriple × (Nat → Nat),
      ∃ l2, (l.foldl greedyStep acc).1 = acc.1 ++ l2 ∧ List.Sublist l2 l := by
  induction l with
  | nil => intro acc; exact ⟨[], by simp, List.nil_sublist _⟩
  | cons t rest ih =>
    intro acc
    simp only [List.foldl_cons]
    rw [greedyStep]
    by_cases hc : acc.2 t.i < maxEdgesPerNode ∧ acc.2 t.j < maxEdgesPerNode
    · rw [if_pos hc]
      rcases ih (acc.1 ++ [t],
        fun n => if n = t.i ∨ n = t.j then acc.2 n + 1 else acc.2 n) with ⟨l2, h1, h2⟩
      exact ⟨t :: l2, by rw [h1, List.append_assoc]; rfl, h2.cons₂ t⟩
    · rw [if_neg hc]
      rcases ih acc with ⟨l2, h1, h2⟩
      exact ⟨l2, h1, h2.cons t⟩

lemma greedyAssign_sublist (l : List SimTriple) :
    List.Sublist (greedyAssign l).1 l := by
  rcases greedyFold_append l ([], fun _ => 0) with ⟨l2, h1, h2⟩
  rw [greedyAssign, h1]
  simpa using h2

lemma countTouching_append (es : List SimTriple) (t : SimTriple) (n : Nat) :
    countTouching (es ++ [t]) n =
      countTouching es n + (if n = t.i ∨ n = t.j then 1 else 0) := by
  rw [countTouching, countTouching, List.filter_append]
  by_cases hc : n = t.i ∨ n = t.j
  · simp [hc]
  · simp [hc]

lemma greedyFold_inv (l : List SimTriple) :
    ∀ acc : List SimTriple × (Nat → Nat),
      (∀ n, acc.2 n = countTouching acc.1 n ∧ acc.2 n ≤ maxEdgesPerNode) →
      ∀ n, (l.foldl greedyStep acc).2 n = countTouching (l.foldl greedyStep acc).1 n
        ∧ (l.foldl greedyStep acc).2 n ≤ maxEdgesPerNode := by
  induction l with
  | nil => intro acc hacc; exact hacc
  | cons t rest ih =>
    intro acc hacc
    simp only [List.foldl_cons]
    refine ih (greedyStep acc t) ?_
    intro n
    by_cases hc : acc.2 t.i < maxEdgesPerNode ∧ acc.2 t.j < maxEdgesPerNode
    · simp only [greedyStep, if_pos hc]
      by_cases hn : n = t.i ∨ n = t.j
      · have h1 : countTouching (acc.1 ++ [t]) n = countTouching acc.1 n + 1 := by
          rw [countTouching_append, if_pos hn]
        have h2 : acc.2 n < maxEdgesPerNode := by
          rcases hn with h | h
          · rw [h]; exact hc.1
          · rw [h]; exact hc.2
        rw [if_pos hn, h1, (hacc n).1]
        exact ⟨rfl, by rw [(hacc n).1] at h2; omega⟩
      · have h1 : countTouching (acc.1 ++ [t]) n = countTouching acc.1 n := by
          rw [countTouching_append, if_neg hn]
          omega
        rw [if_neg hn, h1]
        exact hacc n
    · simp only [greedyStep, if_neg hc]
      exact hacc n

lemma collectSimsAux_threshold (sqrt : ℚ → ℚ) (posts : List EmbeddingData) :
    ∀ (prs : List (Nat × Nat)) (ts : List SimTriple),
      collectSimsAux sqrt posts prs = .ok ts →
      ∀ t ∈ ts, simThreshold ≤ t.similarity := by
  intro prs
  induction prs with
  | nil =>
    intro ts h
    rw [collectSimsAux] at h
    injection h with h1
    rw [← h1]
    intro t ht
    simp at ht
  | cons hd rest ih =>
    rcases hd with ⟨i, j⟩
    intro ts h
    rw [collectSimsAux] at h
    rcases hstrict : cosineSimilarityStrict sqrt (embAt posts i) (embAt posts j)
      with e | s
    · rw [hstrict] at h; exact absurd h (by simp)
    · rw [hstrict] at h
      rcases haux : collectSimsAux sqrt posts rest with e | ts2
      · rw [haux] at h; exact absurd h (by simp)
      · rw [haux] at h
        injection h with h1
        by_cases hth : simThreshold ≤ s
        · rw [if_pos hth] at h1
          rw [← h1]
          intro t ht
          rcases List.mem_cons.mp ht with rfl | hmem
          · exact hth
          · exact ih ts2 haux t hmem
        · rw [if_neg hth] at h1
          rw [← h1]
          exact ih ts2 haux


lemma collectSimsAux_pairs_sublist (sqrt : ℚ → ℚ) (posts : List EmbeddingData) :
    ∀ (prs : List (Nat × Nat)) (ts : List SimTriple),
      collectSimsAux sqrt posts prs = .ok ts →
      List.Sublist (ts.map (fun t => (t.i, t.j))) prs := by
  intro prs
  induction prs with
  | nil =>
    intro ts h
    rw [collectSimsAux] at h
    injection h with h1
    rw [← h1]
    exact List.nil_sublist _
  | cons hd rest ih =>
    rcases hd with ⟨i, j⟩
    intro ts h
    rw [collectSimsAux] at h
    rcases hstrict : cosineSimilarityStrict sqrt (embAt posts i) (embAt posts j)
      with e | s
    · rw [hstrict] at h; exact absurd h (by simp)
    · rw [hstrict] at h
      rcases haux : collectSimsAux sqrt posts rest with e | ts2
      · rw [haux] at h; exact absurd h (by simp)
      · rw [haux] at h
        injection h with h1
        by_cases hth : simThreshold ≤ s
        · rw [if_pos hth] at h1
          rw [← h1]
          simpa using (ih ts2 haux).cons₂ (i, j)
        · rw [if_neg hth] at h1
          rw [← h1]
          exact (ih ts2 haux).cons (i, j)

lemma pairIdx_nodup (n : Nat) : (pairIdx n).Nodup := by
  rw [pairIdx, List.nodup_flatMap]
  constructor
  · intro i hi
    refine List.Nodup.map ?_ (List.Nodup.filter _ (List.nodup_range n))
    intro a b hab
    simpa using hab
  · rw [List.pairwise_iff_forall_sublist]
    intro i1 i2 hsub
    have hne : i1 ≠ i2 := by
      have := (List.nodup_range n).sublist hsub
      simpa using this
    intro x hx1 hx2
    simp only [List.mem_map, List.mem_filter] at hx1 hx2
    rcases hx1 with ⟨a, -, rfl⟩
    rcases hx2 with ⟨b, -, hb⟩
    exact hne (congrArg Prod.fst hb.symm)

lemma graphTriples_spec (sqrt : ℚ → ℚ) (posts : List EmbeddingData)
    (chosen : List SimTriple) (h : graphTriples sqrt posts = .ok chosen) :
    ∃ ts, collectSims sqrt posts = .ok ts
      ∧ chosen = (greedyAssign (sortSimsDesc ts)).1 := by
  rw [graphTriples] at h
  rcases hs : collectSims sqrt posts with e | ts
  · rw [hs] at h; exact absurd h (by simp)
  · rw [hs] at h
    injection h with h1
    exact ⟨ts, rfl, h1.symm⟩

lemma graphTriples_mem_collect {sqrt : ℚ → ℚ} {posts : List EmbeddingData}
    {ts chosen : List SimTriple} (hts : collectSims sqrt posts = .ok ts)
    (hch : chosen = (greedyAssign (sortSimsDesc ts)).1) :
    ∀ t ∈ chosen, t ∈ ts := by
  intro t ht
  rw [hch] at ht
  have h1 : t ∈ sortSimsDesc ts :=
    (greedyAssign_sublist (sortSimsDesc ts)).subset ht
  exact ((sortSimsDesc_perm ts).mem_iff).mp h1

lemma collectSims_i_lt_j {sqrt : ℚ → ℚ} {posts : List EmbeddingData}
    {ts : List SimTriple} (hts : collectSims sqrt posts = .ok ts) :
    ∀ t ∈ ts, t.i < t.j := by
  intro t ht
  have hm : (t.i, t.j) ∈ pairIdx posts.length :=
    (collectSimsAux_pairs_sublist sqrt posts _ ts hts).subset
      (List.mem_map_of_mem (fun t => (t.i, t.j)) ht)
  exact (mem_pairIdx.mp hm).1

/-- **C5**: in the standalone similarity graph, after sorting the qualifying
pairs (raw similarity ≥ 0.65) in descending order, a pair is added only if
both endpoints have fewer than `MAX_EDGES_PER_NODE = 5` assigned edges
(`greedyStep`), so in the final chosen pair set no record index is touched by
more than 5 edges; every chosen pair passed the 0.65 threshold, and the
emitted edge list of `build-graph.ts` is exactly the chosen pairs rendered as
`{source, target, weight}`. -/
theorem standalone_graph_per_node_edge_cap (sqrt : ℚ → ℚ)
    (posts : List EmbeddingData) (chosen : List SimTriple)
    (h : graphTriples sqrt posts = .ok chosen) :
    (∀ n, countTouching chosen n ≤ maxEdgesPerNode)
    ∧ (∀ t ∈ chosen, simThreshold ≤ t.similarity)
    ∧ Except.map GraphData.edges (buildGraph sqrt posts) =
        .ok (chosen.map (mkGraphEdge posts)) := by
  rcases graphTriples_spec sqrt posts chosen h with ⟨ts, hts, hch⟩
  refine ⟨?_, ?_, ?_⟩
  · intro n
    have hbase : ∀ m, (fun (_ : Nat) => 0) m =
        countTouching ([] : List SimTriple) m ∧ (fun (_ : Nat) => 0) m ≤ maxEdgesPerNode := by
      intro m
      exact ⟨by simp [countTouching], by simp [maxEdgesPerNode]⟩
    have hinv := greedyFold_inv (sortSimsDesc ts) ([], fun _ => 0) hbase n
    rw [hch, greedyAssign]
    rw [← (hinv).1]
    exact hinv.2
  · intro t ht
    exact collectSimsAux_threshold sqrt posts _ ts hts t
      (graphTriples_mem_collect hts hch t ht)
  · by_cases hempty : posts.isEmpty
    · have hnil : posts = [] := by
        rcases posts with _ | ⟨p, rest⟩
        · rfl
        · simp at hempty
      subst hnil
      have hts0 : collectSims sqrt ([] : List EmbeddingData) = .ok [] := rfl
      rw [hts0] at hts
      injection hts with hts1
      subst hts1
      rw [hch]
      rfl
    · have hempty' : posts.isEmpty = false := by
        rcases hb : posts.isEmpty with _ | _
        · rfl
        · exact absurd hb hempty
      rw [buildGraph, hempty']
      simp only [Bool.false_eq_true, if_false]
      rw [hts]
      simp only [Except.map]
      rw [hch]

/-- Witness for C5: a two-record cache with identical one-dimensional
embeddings; the single qualifying pair is chosen and node index 0 is under
the cap. -/
theorem standalone_graph_per_node_edge_cap_witness :
    countTouching [⟨0, 1, 1⟩] 0 ≤ maxEdgesPerNode :=
  (standalone_graph_per_node_edge_cap (fun _ => 1)
    [⟨"a", "A", [], [1]⟩, ⟨"b", "B", [], [1]⟩] [⟨0, 1, 1⟩]
    (by norm_num [graphTriples, collectSims, collectSimsAux, pairIdx, embAt,
      defaultEmbeddingData, cosineSimilarityStrict, cosineCore, dotProduct,
      simThreshold, sortSimsDesc, insertSimDesc, greedyAssign, greedyStep,
      maxEdgesPerNode, List.range_succ])).1 0


/-- Two chosen pairs relate distinct unordered index pairs. -/
def distinctIdxPair (t u : SimTriple) : Prop :=
  ¬ ((t.i = u.i ∧ t.j = u.j) ∨ (t.i = u.j ∧ t.j = u.i))

lemma graphTriples_pairwise_distinct {sqrt : ℚ → ℚ} {posts : List EmbeddingData}
    {chosen : List SimTriple} (h : graphTriples sqrt posts = .ok chosen) :
    List.Pairwise distinctIdxPair chosen := by
  rcases graphTriples_spec sqrt posts chosen h with ⟨ts, hts, hch⟩
  have hlt : ∀ t ∈ chosen, t.i < t.j := fun t ht =>
    collectSims_i_lt_j hts t (graphTriples_mem_collect hts hch t ht)
  have hpairs : (ts.map (fun t => (t.i, t.j))).Nodup :=
    (collectSimsAux_pairs_sublist sqrt posts _ ts hts).nodup
      (pairIdx_nodup posts.length)
  have hne : ts.Pairwise (fun a b => (a.i, a.j) ≠ (b.i, b.j)) :=
    List.pairwise_map.mp hpairs
  have hsort : (sortSimsDesc ts).Pairwise (fun a b => (a.i, a.j) ≠ (b.i, b.j)) :=
    ((sortSimsDesc_perm ts).pairwise_iff
      (fun {x y} h1 h2 => h1 h2.symm)).mpr hne
  have hchosen : chosen.Pairwise (fun a b => (a.i, a.j) ≠ (b.i, b.j)) := by
    rw [hch]
    exact hsort.sublist (greedyAssign_sublist _)
  refine hchosen.imp_of_mem ?_
  intro a b ha hb hab
  intro hcase
  rcases hcase with ⟨h1, h2⟩ | ⟨h1, h2⟩
  · exact hab (by rw [h1, h2])
  · have ha2 := hlt a ha
    have hb2 := hlt b hb
    omega

lemma graphNodes_fold_ids (cnt : Nat → Nat) (posts : List EmbeddingData) :
    ∀ acc : List GraphNode × List String × Nat,
      ((posts.foldl (graphNodesStep cnt) acc).1).map GraphNode.id =
        acc.1.map GraphNode.id ++ posts.map EmbeddingData.slug := by
  induction posts with
  | nil => intro acc; simp
  | cons p rest ih =>
    intro acc
    simp only [List.foldl_cons]
    rw [ih]
    simp [graphNodesStep]

lemma buildGraph_ok_node_ids {sqrt : ℚ → ℚ} {posts : List EmbeddingData}
    {g : GraphData} (h : buildGraph sqrt posts = .ok g) :
    g.nodes.map GraphNode.id = posts.map EmbeddingData.slug := by
  rw [buildGraph] at h
  by_cases hempty : posts.isEmpty
  · have hnil : posts = [] := by
      rcases posts with _ | ⟨p, rest⟩
      · rfl
      · simp at hempty
    subst hnil
    simp only [List.isEmpty_nil, if_pos] at h
    injection h with h1
    rw [← h1]
    rfl
  · have hempty' : posts.isEmpty = false := by
      rcases hb : posts.isEmpty with _ | _
      · rfl
      · exact absurd hb hempty
    rw [hempty'] at h
    simp only [Bool.false_eq_true, if_false] at h
    rcases hs : collectSims sqrt posts with e | ts
    · rw [hs] at h; exact absurd h (by simp)
    · rw [hs] at h
      injection h with h1
      rw [← h1]
      simpa [buildGraphNodes] using graphNodes_fold_ids _ posts ([], [], 0)


/-! ## Unified links-data builder

The links-data builder (bundled with `build-search-index.ts`): reads posts
(`readPosts` pairs each file with `explicitLinks = parseWikiLinks(body)`;
file I/O and frontmatter parsing are outside the model, so `PostData` carries
the parsed `explicitLinks` directly), loads the embeddings cache, then:
explicit-edge loop, AI-suggestion loop with cross-type dedup, backlinks
assembly, and node construction. JS `Map`s keyed by string are modelled as
functions out of `String`; JS object maps as `String → Option _`.
-/

/-- A post as consumed by the links-data builder (`date`, `excerpt` and the
raw body are not read by any modelled computation and are omitted;
`explicitLinks` is `parseWikiLinks` of the body, per `readPosts`). -/
structure PostData where
  slug : String
  title : String
  tags : List String
  explicitLinks : List String
deriving DecidableEq

/-- `'explicit' | 'ai'`. -/
inductive EdgeType where
  | explicit
  | ai
deriving DecidableEq

/-- An edge of `links-data.json`. -/
structure LinksEdge where
  source : String
  target : String
  weight : ℚ
  type : EdgeType
deriving DecidableEq

/-- An AI suggestion entry `{slug, title, score}`. -/
structure Suggestion where
  slug : String
  title : String
  score : ℚ
deriving DecidableEq

/-- An explicit backlink entry `{slug, title}`. -/
structure ExplicitRef where
  slug : String
  title : String
deriving DecidableEq

/-- A `backlinks[slug]` entry. -/
structure BacklinksEntry where
  explicit : List ExplicitRef
  aiSuggested : List Suggestion
deriving DecidableEq

/-- `links-data.json` (`postMeta` and `generatedAt` omitted — no claim reads
them and they are straight copies of the inputs). -/
structure LinksData where
  nodes : List GraphNode
  edges : List LinksEdge
  backlinks : String → Option BacklinksEntry

/-- `connectionCount.set(k, (connectionCount.get(k) || 0) + 1)`. -/
def bumpCount (cnt : String → Nat) (k : String) : String → Nat :=
  fun s => if s = k then cnt s + 1 else cnt s

/-- Body of the explicit-link loop: an edge (weight 1, type `explicit`) is
added for a target iff `postMap.has(targetSlug)`, bumping both endpoint
counts in sequence (a self-link bumps its slug twice). -/
def explicitEdgeStep (postSlugs : List String) (post : PostData)
    (acc : List LinksEdge × (String → Nat)) (target : String) :
    List LinksEdge × (String → Nat) :=
  if postSlugs.contains target then
    (acc.1 ++ [⟨post.slug, target, 1, .explicit⟩],
     bumpCount (bumpCount acc.2 post.slug) target)
  else acc

/-- The explicit-link double loop (`for post of posts; for targetSlug of
post.explicitLinks`), starting from no edges and zero counts. -/
def explicitPhase (posts : List PostData) (postSlugs : List String) :
    List LinksEdge × (String → Nat) :=
  posts.foldl
    (fun acc post => post.explicitLinks.foldl (explicitEdgeStep postSlugs post) acc)
    ([], fun _ => 0)

/-- The candidate loop of `getAISuggestions`: skip the post itself, skip
targets already in `explicitLinks`, keep candidates with lenient similarity
at least the threshold, with the 2-decimal rounded similarity as score. -/
def collectSuggestions (sqrt : ℚ → ℚ) (cur : EmbeddingData) (slug : String)
    (links : List String) : List EmbeddingData → List Suggestion
  | [] => []
  | other :: rest =>
    if other.slug = slug then collectSuggestions sqrt cur slug links rest
    else if links.contains other.slug then collectSuggestions sqrt cur slug links rest
    else if simThreshold ≤ cosineSimilarityLenient sqrt cur.embedding other.embedding then
      ⟨other.slug, other.title,
        round2 (cosineSimilarityLenient sqrt cur.embedding other.embedding)⟩ ::
        collectSuggestions sqrt cur slug links rest
    else collectSuggestions sqrt cur slug links rest

/-- Stable insertion for the descending sort by score. -/
def insertScoreDesc (x : Suggestion) : List Suggestion → List Suggestion
  | [] => [x]
  | y :: ys => if x.score ≤ y.score then y :: insertScoreDesc x ys
               else x :: y :: ys

/-- `suggestions.sort((a, b) => b.score - a.score)` — stable descending sort
by the rounded score. -/
def sortByScoreDesc (l : List Suggestion) : List Suggestion :=
  l.foldl (fun acc x => insertScoreDesc x acc) []

/-- `getAISuggestions`: `[]` when the post has no embedding record, otherwise
the thresholded candidates sorted descending by rounded score (stable) and
truncated to `MAX_AI_SUGGESTIONS = 5`. -/
def getAISuggestions (sqrt : ℚ → ℚ) (slug : String)
    (embeddings : List EmbeddingData) (explicitLinks : List String) :
    List Suggestion :=
  match embeddings.find? (fun e => e.slug == slug) with
  | none => []
  | some cur =>
    (sortByScoreDesc (collectSuggestions sqrt cur slug explicitLinks embeddings)).take
      maxAISuggestions

/-- `edges.some(e => (e.source === a && e.target === b) ||
(e.source === b && e.target === a))`. -/
def edgeExistsFor (edges : List LinksEdge) (a b : String) : Bool :=
  edges.any (fun e => (e.source == a && e.target == b) ||
                      (e.source == b && e.target == a))

/-- Body of the AI-suggestion edge loop: add an `ai` edge for the suggestion
unless an edge already connects the unordered pair, bumping both counts. -/
def aiEdgeStep (src : String) (p : List LinksEdge × (String → Nat))
    (sug : Suggestion) : List LinksEdge × (String → Nat) :=
  if edgeExistsFor p.1 src sug.slug then p
  else (p.1 ++ [⟨src, sug.slug, sug.score, .ai⟩],
        bumpCount (bumpCount p.2 src) sug.slug)

/-- One post of the AI loop: compute its suggestions, record them in
`aiSuggestionsMap`, and run the edge loop over them. -/
def aiStep (sqrt : ℚ → ℚ) (embeddings : List EmbeddingData)
    (acc : (List LinksEdge × (String → Nat)) × (String → List Suggestion))
    (post : PostData) :
    (List LinksEdge × (String → Nat)) × (String → List Suggestion) :=
  let sugg := getAISuggestions sqrt post.slug embeddings post.explicitLinks
  (sugg.foldl (aiEdgeStep post.slug) acc.1,
   fun s => if s = post.slug then sugg else acc.2 s)

/-- The AI-suggestion loop over all posts, continuing from the explicit-phase
edges and counts with an empty `aiSuggestionsMap`. -/
def aiPhase (sqrt : ℚ → ℚ) (posts : List PostData)
    (embeddings : List EmbeddingData) (init : List LinksEdge × (String → Nat)) :
    (List LinksEdge × (String → Nat)) × (String → List Suggestion) :=
  posts.foldl (aiStep sqrt embeddings) (init, fun _ => [])

/-- `backlinks[post.slug] = {explicit: [], aiSuggested: map.get(slug) || []}`
(later posts with the same slug overwrite earlier ones). -/
def backlinksInitStep (aiMap : String → List Suggestion)
    (bl : String → Option BacklinksEntry) (post : PostData) :
    String → Option BacklinksEntry :=
  fun s => if s = post.slug then some ⟨[], aiMap post.slug⟩ else bl s

/-- The backlinks-object initialization loop. -/
def backlinksInit (posts : List PostData) (aiMap : String → List Suggestion) :
    String → Option BacklinksEntry :=
  posts.foldl (backlinksInitStep aiMap) (fun _ => none)

/-- `if (backlinks[targetSlug]) backlinks[targetSlug].explicit.push(r)`. -/
def pushExplicitRef (bl : String → Option BacklinksEntry) (target : String)
    (r : ExplicitRef) : String → Option BacklinksEntry :=
  match bl target with
  | some entry =>
    fun s => if s = target then some ⟨entry.explicit ++ [r], entry.aiSuggested⟩
             else bl s
  | none => bl

/-- The explicit-backlink population double loop. -/
def backlinksPhase (posts : List PostData) (aiMap : String → List Suggestion) :
    String → Option BacklinksEntry :=
  posts.foldl
    (fun bl post => post.explicitLinks.foldl
      (fun bl2 target => pushExplicitRef bl2 target ⟨post.slug, post.title⟩) bl)
    (backlinksInit posts aiMap)

/-- One step of the node map of the links-data builder (`connections` is
keyed by slug here, unlike the index-keyed standalone builder). -/
def linksNodesStep (cnt : String → Nat)
    (acc : List GraphNode × List String) (post : PostData) :
    List GraphNode × List String :=
  let g := assignGroup post.tags acc.2
  (acc.1 ++ [⟨post.slug, post.title, post.tags, g.1, cnt post.slug⟩], g.2)

/-- The node list of `links-data.json`. -/
def buildLinksNodes (posts : List PostData) (cnt : String → Nat) :
    List GraphNode :=
  (posts.foldl (linksNodesStep cnt) ([], [])).1

/-- `main` of the links-data builder as a function from the read posts and the
loaded embeddings cache (empty list when the cache file is missing) to the
written `links-data.json`. -/
def buildLinksData (sqrt : ℚ → ℚ) (posts : List PostData)
    (embeddings : List EmbeddingData) : LinksData :=
  let postSlugs := posts.map PostData.slug
  let ec := explicitPhase posts postSlugs
  let aiRes := aiPhase sqrt posts embeddings ec
  { nodes := buildLinksNodes posts aiRes.1.2
    edges := aiRes.1.1
    backlinks := backlinksPhase posts aiRes.2 }

/-- The number of endpoint slots of the edges of `es` occupied by slug `s`
(a self-loop contributes 2). -/
def degreeSum (es : List LinksEdge) (s : String) : Nat :=
  (es.map (fun e => (if e.source = s then 1 else 0) +
                    (if e.target = s then 1 else 0))).sum

/-- Two edges connect the same unordered (source, target) pair. -/
def sameUnorderedPair (e f : LinksEdge) : Prop :=
  (e.source = f.source ∧ e.target = f.target) ∨
  (e.source = f.target ∧ e.target = f.source)

instance (e f : LinksEdge) : Decidable (sameUnorderedPair e f) :=
  inferInstanceAs (Decidable ((e.source = f.source ∧ e.target = f.target) ∨
    (e.source = f.target ∧ e.target = f.source)))


lemma explicitFold_inner (postSlugs : List String) (post : PostData)
    (links : List String) :
    ∀ acc : List LinksEdge × (String → Nat),
      (links.foldl (explicitEdgeStep postSlugs post) acc).1 =
        acc.1 ++ (links.filter (fun t => postSlugs.contains t)).map
          (fun t => (⟨post.slug, t, 1, .explicit⟩ : LinksEdge)) := by
  induction links with
  | nil => intro acc; simp
  | cons t rest ih =>
    intro acc
    simp only [List.foldl_cons, List.filter_cons]
    by_cases hc : postSlugs.contains t
    · have hm : t ∈ postSlugs := by simpa using hc
      rw [explicitEdgeStep, if_pos hc, ih]
      simp [hm, List.append_assoc]
    · have hm : t ∉ postSlugs := by simpa using hc
      rw [explicitEdgeStep, if_neg hc, ih]
      simp [hm]

lemma explicitPhase_fold_edges (postSlugs : List String) (posts : List PostData) :
    ∀ acc : List LinksEdge × (String → Nat),
      ((posts.foldl
        (fun acc post => post.explicitLinks.foldl (explicitEdgeStep postSlugs post) acc)
        acc).1) =
        acc.1 ++ posts.flatMap (fun post =>
          (post.explicitLinks.filter (fun t => postSlugs.contains t)).map
            (fun t => (⟨post.slug, t, 1, .explicit⟩ : LinksEdge))) := by
  induction posts with
  | nil => intro acc; simp
  | cons p rest ih =>
    intro acc
    simp only [List.foldl_cons, List.flatMap_cons]
    rw [ih, explicitFold_inner]
    simp [List.append_assoc]

lemma explicitPhase_edges (posts : List PostData) (postSlugs : List String) :
    (explicitPhase posts postSlugs).1 =
      posts.flatMap (fun post =>
        (post.explicitLinks.filter (fun t => postSlugs.contains t)).map
          (fun t => (⟨post.slug, t, 1, .explicit⟩ : LinksEdge))) := by
  rw [explicitPhase, explicitPhase_fold_edges]
  rfl

/-- The per-edge count invariant of both edge loops. -/
def CountInv (p : List LinksEdge × (String → Nat)) : Prop :=
  ∀ s, p.2 s = degreeSum p.1 s

lemma degreeSum_append (es : List LinksEdge) (e : LinksEdge) (s : String) :
    degreeSum (es ++ [e]) s =
      degreeSum es s + ((if e.source = s then 1 else 0) +
                        (if e.target = s then 1 else 0)) := by
  simp [degreeSum]

lemma bump2_eval (cnt : String → Nat) (a b s : String) :
    bumpCount (bumpCount cnt a) b s =
      cnt s + ((if a = s then 1 else 0) + (if b = s then 1 else 0)) := by
  simp only [bumpCount]
  by_cases h1 : s = a
  · subst h1
    by_cases h2 : s = b
    · subst h2
      simp
      try omega
    · have h2' : ¬ b = s := fun hh => h2 hh.symm
      simp [h2, h2']
      try omega
  · have h1' : ¬ a = s := fun hh => h1 hh.symm
    by_cases h2 : s = b
    · subst h2
      simp [h1, h1']
      try omega
    · have h2' : ¬ b = s := fun hh => h2 hh.symm
      simp [h1, h2, h1', h2']
      try omega

lemma countInv_append {p : List LinksEdge × (String → Nat)} (e : LinksEdge)
    (h : CountInv p) :
    CountInv (p.1 ++ [e], bumpCount (bumpCount p.2 e.source) e.target) := by
  intro s
  show bumpCount (bumpCount p.2 e.source) e.target s = degreeSum (p.1 ++ [e]) s
  rw [bump2_eval, degreeSum_append, h s]

lemma explicitEdgeStep_inv (postSlugs : List String) (post : PostData)
    {acc : List LinksEdge × (String → Nat)} (h : CountInv acc) (target : String) :
    CountInv (explicitEdgeStep postSlugs post acc target) := by
  rw [explicitEdgeStep]
  by_cases hc : postSlugs.contains target
  · rw [if_pos hc]
    exact countInv_append _ h
  · rw [if_neg hc]
    exact h

lemma aiEdgeStep_inv (src : String)
    {p : List LinksEdge × (String → Nat)} (h : CountInv p) (sug : Suggestion) :
    CountInv (aiEdgeStep src p sug) := by
  rw [aiEdgeStep]
  by_cases hc : edgeExistsFor p.1 src sug.slug
  · rw [if_pos hc]
    exact h
  · rw [if_neg hc]
    exact countInv_append _ h

lemma foldl_countInv {β : Type}
    (step : (List LinksEdge × (String → Nat)) → β → List LinksEdge × (String → Nat))
    (hstep : ∀ {p} (b : β), CountInv p → CountInv (step p b)) (l : List β) :
    ∀ {acc}, CountInv acc → CountInv (l.foldl step acc) := by
  induction l with
  | nil => intro acc h; exact h
  | cons b rest ih =>
    intro acc h
    simp only [List.foldl_cons]
    exact ih (hstep b h)

lemma explicitPhase_inv (posts : List PostData) (postSlugs : List String) :
    CountInv (explicitPhase posts postSlugs) := by
  rw [explicitPhase]
  refine foldl_countInv _ ?_ posts ?_
  · intro p post hp
    exact foldl_countInv _ (fun t ht => explicitEdgeStep_inv postSlugs post ht t)
      post.explicitLinks hp
  · intro s
    simp [degreeSum]

lemma aiPhase_inv (sqrt : ℚ → ℚ) (posts : List PostData)
    (embeddings : List EmbeddingData) {init : List LinksEdge × (String → Nat)}
    (hinit : CountInv init) :
    CountInv (aiPhase sqrt posts embeddings init).1 := by
  rw [aiPhase]
  have hgen : ∀ (l : List PostData)
      (acc : (List LinksEdge × (String → Nat)) × (String → List Suggestion)),
      CountInv acc.1 → CountInv (l.foldl (aiStep sqrt embeddings) acc).1 := by
    intro l
    induction l with
    | nil => intro acc h; exact h
    | cons post rest ih =>
      intro acc h
      simp only [List.foldl_cons]
      refine ih _ ?_
      rw [aiStep]
      exact foldl_countInv _ (fun sug hs => aiEdgeStep_inv post.slug hs sug) _ h
  exact hgen posts (init, fun _ => []) hinit

lemma aiFold_edges_append (src : String) (suggs : List Suggestion) :
    ∀ p : List LinksEdge × (String → Nat),
      ∃ l2, (suggs.foldl (aiEdgeStep src) p).1 = p.1 ++ l2 := by
  induction suggs with
  | nil => intro p; exact ⟨[], by simp⟩
  | cons sug rest ih =>
    intro p
    simp only [List.foldl_cons]
    rw [aiEdgeStep]
    by_cases hc : edgeExistsFor p.1 src sug.slug
    · rw [if_pos hc]
      exact ih p
    · rw [if_neg hc]
      rcases ih (p.1 ++ [⟨src, sug.slug, sug.score, .ai⟩],
        bumpCount (bumpCount p.2 src) sug.slug) with ⟨l2, h2⟩
      exact ⟨_ :: l2, by rw [h2, List.append_assoc]; rfl⟩

lemma aiPhase_edges_append (sqrt : ℚ → ℚ) (posts : List PostData)
    (embeddings : List EmbeddingData) (init : List LinksEdge × (String → Nat)) :
    ∃ l2, (aiPhase sqrt posts embeddings init).1.1 = init.1 ++ l2 := by
  rw [aiPhase]
  have hgen : ∀ (l : List PostData)
      (acc : (List LinksEdge × (String → Nat)) × (String → List Suggestion)),
      ∃ l2, (l.foldl (aiStep sqrt embeddings) acc).1.1 = acc.1.1 ++ l2 := by
    intro l
    induction l with
    | nil => intro acc; exact ⟨[], by simp⟩
    | cons post rest ih =>
      intro acc
      simp only [List.foldl_cons]
      rcases ih (aiStep sqrt embeddings acc post) with ⟨l2, h2⟩
      rcases aiFold_edges_append post.slug
        (getAISuggestions sqrt post.slug embeddings post.explicitLinks) acc.1
        with ⟨l1, h1⟩
      refine ⟨l1 ++ l2, ?_⟩
      rw [h2, aiStep]
      simp only []
      rw [h1, List.append_assoc]
  exact hgen posts (init, fun _ => [])

lemma linksNodes_fold_pairs (cnt : String → Nat) (posts : List PostData) :
    ∀ acc : List GraphNode × List String,
      ((posts.foldl (linksNodesStep cnt) acc).1).map (fun nd => (nd.id, nd.connections)) =
        acc.1.map (fun nd => (nd.id, nd.connections)) ++
          posts.map (fun p => (p.slug, cnt p.slug)) := by
  induction posts with
  | nil => intro acc; simp
  | cons p rest ih =>
    intro acc
    simp only [List.foldl_cons]
    rw [ih]
    simp [linksNodesStep]

lemma buildLinksNodes_pairs (posts : List PostData) (cnt : String → Nat) :
    (buildLinksNodes posts cnt).map (fun nd => (nd.id, nd.connections)) =
      posts.map (fun p => (p.slug, cnt p.slug)) := by
  rw [buildLinksNodes]
  simpa using linksNodes_fold_pairs cnt posts ([], [])

lemma buildLinksNodes_ids (posts : List PostData) (cnt : String → Nat) :
    (buildLinksNodes posts cnt).map GraphNode.id = posts.map PostData.slug := by
  have h := congrArg (List.map Prod.fst) (buildLinksNodes_pairs posts cnt)
  simpa [List.map_map, Function.comp] using h


/-- **C10**: the links builder does not filter self-references — for a post
whose `explicitLinks` contain its own slug, the output contains an explicit
self-loop edge with `source = target = slug`, and the post's node carries
`connections = degreeSum edges slug`, the endpoint-slot count in which a
self-loop contributes 2 (both `connectionCount.set` calls hit the same
slug). -/
theorem self_wiki_link_explicit_self_loop (sqrt : ℚ → ℚ)
    (posts : List PostData) (embeddings : List EmbeddingData) (p : PostData)
    (hp : p ∈ posts) (hself : p.slug ∈ p.explicitLinks) :
    (⟨p.slug, p.slug, 1, .explicit⟩ : LinksEdge) ∈
      (buildLinksData sqrt posts embeddings).edges
    ∧ (p.slug, degreeSum (buildLinksData sqrt posts embeddings).edges p.slug) ∈
      (buildLinksData sqrt posts embeddings).nodes.map
        (fun nd => (nd.id, nd.connections)) := by
  have hslug : p.slug ∈ posts.map PostData.slug := List.mem_map_of_mem _ hp
  have hmem : (⟨p.slug, p.slug, 1, .explicit⟩ : LinksEdge) ∈
      (explicitPhase posts (posts.map PostData.slug)).1 := by
    rw [explicitPhase_edges]
    simp only [List.mem_flatMap, List.mem_map, List.mem_filter]
    exact ⟨p, hp, p.slug, by simp [hself, hslug], rfl⟩
  rcases aiPhase_edges_append sqrt posts embeddings
    (explicitPhase posts (posts.map PostData.slug)) with ⟨l2, hl2⟩
  constructor
  · show (⟨p.slug, p.slug, 1, .explicit⟩ : LinksEdge) ∈
      (aiPhase sqrt posts embeddings
        (explicitPhase posts (posts.map PostData.slug))).1.1
    rw [hl2]
    exact List.mem_append_left _ hmem
  · show (p.slug, degreeSum (buildLinksData sqrt posts embeddings).edges p.slug) ∈
      (buildLinksNodes posts
        (aiPhase sqrt posts embeddings
          (explicitPhase posts (posts.map PostData.slug))).1.2).map
        (fun nd => (nd.id, nd.connections))
    rw [buildLinksNodes_pairs]
    have hcnt := aiPhase_inv sqrt posts embeddings
      (explicitPhase_inv posts (posts.map PostData.slug)) p.slug
    refine List.mem_map.mpr ⟨p, hp, ?_⟩
    rw [hcnt]
    rfl

/-- Witness for C10: a single post "s" whose body wiki-links its own slug;
the output has exactly the self-loop edge and the node's `connections` is 2 —
the single self-loop edge contributed 2. -/
theorem self_wiki_link_explicit_self_loop_witness :
    ((⟨"s", "s", 1, .explicit⟩ : LinksEdge) ∈
      (buildLinksData (fun _ => 0) [⟨"s", "S", [], ["s"]⟩] []).edges
    ∧ ("s", degreeSum (buildLinksData (fun _ => 0) [⟨"s", "S", [], ["s"]⟩] []).edges "s") ∈
      (buildLinksData (fun _ => 0) [⟨"s", "S", [], ["s"]⟩] []).nodes.map
        (fun nd => (nd.id, nd.connections)))
    ∧ (buildLinksData (fun _ => 0) [⟨"s", "S", [], ["s"]⟩] []).nodes.map
        (fun nd => (nd.id, nd.connections)) = [("s", 2)] :=
  ⟨self_wiki_link_explicit_self_loop (fun _ => 0) [⟨"s", "S", [], ["s"]⟩] []
    ⟨"s", "S", [], ["s"]⟩ (by decide) (by decide), by decide⟩

/-- **C1** counterexample: two posts that each explicitly wiki-link the other
produce two explicit edges — one per direction — for the same unordered
(source, target) pair, refuting "the edge set contains at most one edge per
unordered (source, target) slug pair ... for any two posts that each
explicitly wiki-link to the other, only one edge exists for that pair". -/
theorem mutual_explicit_links_two_edges_cex :
    (buildLinksData (fun _ => 0)
      [⟨"a", "A", [], ["b"]⟩, ⟨"b", "B", [], ["a"]⟩] []).edges =
      [⟨"a", "b", 1, .explicit⟩, ⟨"b", "a", 1, .explicit⟩]
    ∧ sameUnorderedPair (⟨"a", "b", 1, .explicit⟩ : LinksEdge)
        ⟨"b", "a", 1, .explicit⟩
    ∧ (⟨"a", "b", 1, .explicit⟩ : LinksEdge) ≠ ⟨"b", "a", 1, .explicit⟩ :=
  ⟨by decide, by decide, by decide⟩

/-- In order of emission: no `ai` edge repeats the unordered pair of any
earlier edge (of either type). -/
def aiNoDupPair (e f : LinksEdge) : Prop :=
  f.type = EdgeType.ai → ¬ sameUnorderedPair e f

lemma edgeExistsFor_false {edges : List LinksEdge} {a b : String}
    (h : edgeExistsFor edges a b = false) :
    ∀ e ∈ edges, ¬ ((e.source = a ∧ e.target = b) ∨
                    (e.source = b ∧ e.target = a)) := by
  intro e he hcon
  rw [edgeExistsFor] at h
  have h2 := List.any_eq_false.mp h e he
  simp only [Bool.or_eq_true, Bool.and_eq_true, beq_iff_eq] at h2
  exact h2 (by tauto)

lemma pairwise_aiNoDup_of_all_explicit {es : List LinksEdge}
    (h : ∀ e ∈ es, e.type = EdgeType.explicit) : es.Pairwise aiNoDupPair := by
  induction es with
  | nil => exact List.Pairwise.nil
  | cons e rest ih =>
    refine List.Pairwise.cons ?_ (ih ?_)
    · intro f hf hty
      have := h f (List.mem_cons_of_mem e hf)
      rw [this] at hty
      exact absurd hty (by simp)
    · intro f hf
      exact h f (List.mem_cons_of_mem e hf)

lemma aiEdgeStep_pairwise (src : String)
    {p : List LinksEdge × (String → Nat)} (hp : p.1.Pairwise aiNoDupPair)
    (sug : Suggestion) : (aiEdgeStep src p sug).1.Pairwise aiNoDupPair := by
  rw [aiEdgeStep]
  by_cases hc : edgeExistsFor p.1 src sug.slug
  · rw [if_pos hc]
    exact hp
  · rw [if_neg hc]
    have hc' : edgeExistsFor p.1 src sug.slug = false := by
      rcases hb : edgeExistsFor p.1 src sug.slug with _ | _
      · rfl
      · exact absurd hb hc
    rw [List.pairwise_append]
    refine ⟨hp, by simp, ?_⟩
    intro e he f hf
    simp only [List.mem_singleton] at hf
    subst hf
    intro hty
    exact edgeExistsFor_false hc' e he

lemma aiPhase_pairwise (sqrt : ℚ → ℚ) (posts : List PostData)
    (embeddings : List EmbeddingData) {init : List LinksEdge × (String → Nat)}
    (hinit : init.1.Pairwise aiNoDupPair) :
    (aiPhase sqrt posts embeddings init).1.1.Pairwise aiNoDupPair := by
  rw [aiPhase]
  have hgen : ∀ (l : List PostData)
      (acc : (List LinksEdge × (String → Nat)) × (String → List Suggestion)),
      acc.1.1.Pairwise aiNoDupPair →
      (l.foldl (aiStep sqrt embeddings) acc).1.1.Pairwise aiNoDupPair := by
    intro l
    induction l with
    | nil => intro acc h; exact h
    | cons post rest ih =>
      intro acc h
      simp only [List.foldl_cons]
      refine ih _ ?_
      rw [aiStep]
      have hinner : ∀ (suggs : List Suggestion)
          (q : List LinksEdge × (String → Nat)), q.1.Pairwise aiNoDupPair →
          (suggs.foldl (aiEdgeStep post.slug) q).1.Pairwise aiNoDupPair := by
        intro suggs
        induction suggs with
        | nil => intro q hq; exact hq
        | cons s rest2 ih2 =>
          intro q hq
          simp only [List.foldl_cons]
          exact ih2 _ (aiEdgeStep_pairwise post.slug hq s)
      exact hinner _ acc.1 h
  exact hgen posts (init, fun _ => []) hinit

lemma buildLinksData_edges_pairwise (sqrt : ℚ → ℚ) (posts : List PostData)
    (embeddings : List EmbeddingData) :
    (buildLinksData sqrt posts embeddings).edges.Pairwise aiNoDupPair := by
  show (aiPhase sqrt posts embeddings
    (explicitPhase posts (posts.map PostData.slug))).1.1.Pairwise aiNoDupPair
  refine aiPhase_pairwise sqrt posts embeddings ?_
  refine pairwise_aiNoDup_of_all_explicit ?_
  intro e he
  rw [explicitPhase_edges] at he
  simp only [List.mem_flatMap, List.mem_map, List.mem_filter] at he
  rcases he with ⟨post, -, t, -, rfl⟩
  rfl

/-- **C1** (amended): per-builder edge dedup. In the standalone similarity
graph every two chosen pairs relate distinct unordered index pairs (each
unordered pair of cache records yields at most one edge). In the unified
links builder no `ai` edge repeats the unordered pair of any other edge —
an AI edge is suppressed whenever any edge already connects the pair — but
explicit edges are added unconditionally, so two posts that each wiki-link
the other produce one explicit edge per direction (two edges for that
unordered pair). -/
theorem edge_dedup_per_builder (sqrtQ : ℚ → ℚ) (gposts : List EmbeddingData)
    (chosen : List SimTriple) (h : graphTriples sqrtQ gposts = .ok chosen)
    (sqrt : ℚ → ℚ) (posts : List PostData) (embeddings : List EmbeddingData) :
    List.Pairwise distinctIdxPair chosen
    ∧ List.Pairwise aiNoDupPair (buildLinksData sqrt posts embeddings).edges :=
  ⟨graphTriples_pairwise_distinct h,
   buildLinksData_edges_pairwise sqrt posts embeddings⟩

/-- Witness for the amended C1 at the two-record cache and the mutually
linked posts. -/
theorem edge_dedup_per_builder_witness :
    List.Pairwise distinctIdxPair [(⟨0, 1, 1⟩ : SimTriple)]
    ∧ List.Pairwise aiNoDupPair
        (buildLinksData (fun _ => 0)
          [⟨"a", "A", [], ["b"]⟩, ⟨"b", "B", [], ["a"]⟩] []).edges :=
  edge_dedup_per_builder (fun _ => 1)
    [⟨"a", "A", [], [1]⟩, ⟨"b", "B", [], [1]⟩] [⟨0, 1, 1⟩]
    (by norm_num [graphTriples, collectSims, collectSimsAux, pairIdx, embAt,
      defaultEmbeddingData, cosineSimilarityStrict, cosineCore, dotProduct,
      simThreshold, sortSimsDesc, insertSimDesc, greedyAssign, greedyStep,
      maxEdgesPerNode, List.range_succ])
    (fun _ => 0) [⟨"a", "A", [], ["b"]⟩, ⟨"b", "B", [], ["a"]⟩] []


/-- **C2** counterexample: a cache record whose slug "ghost" matches no
current post still appears — as a node of the standalone graph builder
(whose nodes are built directly from the cache), and in the links builder as
the target of an `ai` edge and as an `aiSuggested` backlink entry (its nodes
exclude it, but `getAISuggestions` iterates over all cache records). This
refutes "that record is ignored and does not appear in the output node list
of either builder (nor ... in any output edge or aiSuggested backlink
entry)". -/
theorem stale_cache_slug_appears_cex :
    buildGraph (fun _ => 1) [⟨"ghost", "Ghost", [], [1]⟩] =
      .ok ⟨[⟨"ghost", "Ghost", [], 0, 0⟩], []⟩
    ∧ (buildLinksData (fun _ => 1) [⟨"a", "A", [], []⟩]
        [⟨"a", "A", [], [1]⟩, ⟨"ghost", "Ghost", [], [1]⟩]).edges =
      [⟨"a", "ghost", 1, .ai⟩]
    ∧ ((buildLinksData (fun _ => 1) [⟨"a", "A", [], []⟩]
        [⟨"a", "A", [], [1]⟩, ⟨"ghost", "Ghost", [], [1]⟩]).backlinks "a").map
        (fun e => e.aiSuggested) = some [⟨"ghost", "Ghost", 1⟩]
    ∧ "ghost" ∉ ([⟨"a", "A", [], []⟩] : List PostData).map PostData.slug := by
  refine ⟨by rfl, ?_, ?_, by decide⟩
  · norm_num [buildLinksData, explicitPhase, explicitEdgeStep, aiPhase, aiStep,
      aiEdgeStep, edgeExistsFor, getAISuggestions, collectSuggestions,
      sortByScoreDesc, insertScoreDesc, bumpCount, cosineSimilarityLenient,
      cosineCore, dotProduct, simThreshold, maxAISuggestions, round2, jsRound]
    decide
  · norm_num [buildLinksData, explicitPhase, explicitEdgeStep, aiPhase, aiStep,
      aiEdgeStep, edgeExistsFor, getAISuggestions, collectSuggestions,
      sortByScoreDesc, insertScoreDesc, bumpCount, backlinksPhase,
      backlinksInit, backlinksInitStep, pushExplicitRef,
      cosineSimilarityLenient, cosineCore, dotProduct, simThreshold,
      maxAISuggestions, round2, jsRound]
    decide

/-- **C2** (amended): the unified links builder's node ids are exactly the
slugs of the current posts (so a stale cache record never appears among its
nodes, though it may still surface in `ai` edges and `aiSuggested`
backlinks), while the standalone graph builder's node ids are exactly the
slugs of the cache records (so a stale record does appear there as a
node). -/
theorem stale_cache_record_node_visibility (sqrt : ℚ → ℚ)
    (posts : List PostData) (embeddings : List EmbeddingData)
    (sqrt2 : ℚ → ℚ) (cache : List EmbeddingData) (g : GraphData)
    (h : buildGraph sqrt2 cache = .ok g) :
    (buildLinksData sqrt posts embeddings).nodes.map GraphNode.id =
      posts.map PostData.slug
    ∧ g.nodes.map GraphNode.id = cache.map EmbeddingData.slug := by
  constructor
  · show (buildLinksNodes posts
      (aiPhase sqrt posts embeddings
        (explicitPhase posts (posts.map PostData.slug))).1.2).map GraphNode.id =
      posts.map PostData.slug
    exact buildLinksNodes_ids posts _
  · exact buildGraph_ok_node_ids h

/-- Witness for the amended C2 at a ghost-only cache and a single post. -/
theorem stale_cache_record_node_visibility_witness :
    (buildLinksData (fun _ => 1) [⟨"a", "A", [], []⟩] []).nodes.map GraphNode.id =
      ([⟨"a", "A", [], []⟩] : List PostData).map PostData.slug
    ∧ (⟨[⟨"ghost", "Ghost", [], 0, 0⟩], []⟩ : GraphData).nodes.map GraphNode.id =
      ([⟨"ghost", "Ghost", [], [1]⟩] : List EmbeddingData).map EmbeddingData.slug :=
  stale_cache_record_node_visibility (fun _ => 1) [⟨"a", "A", [], []⟩] []
    (fun _ => 1) [⟨"ghost", "Ghost", [], [1]⟩] ⟨[⟨"ghost", "Ghost", [], 0, 0⟩], []⟩ rfl


/-- The square-root values reached in the C6 counterexample run: the three
squared norms are the perfect squares 1 = 1 ** 2, 687241 = 829 ** 2 and
2193361 = 1481 ** 2, so this function agrees with `Math.sqrt` (exact in IEEE
doubles on these inputs) at every argument the run applies it to. -/
def sqrtAtCexNorms : ℚ → ℚ :=
  fun x => if x = 1 then 1 else if x = 687241 then 829
           else if x = 2193361 then 1481 else 0

/-- **C6** counterexample: with current post "a" (embedding `[1, 0]`) and
candidates "b" (embedding `[540, 629]`, squared norm 829 ** 2) and "c"
(embedding `[969, 1120]`, squared norm 1481 ** 2), the raw similarities are
540/829 ≈ 0.65139 and 969/1481 ≈ 0.65429 — both at least the 0.65 threshold
and both rounding to score 0.65 — and the stable sort by rounded score keeps
cache order, so the emitted list has the strictly less similar "b" before
"c": the list is not ranked descending by similarity, refuting "ranked
descending by similarity". The sqrt parameter equals the true square root at
every reached argument (last two conjuncts), so this run coincides with the
real `Math.sqrt` run. -/
theorem ai_ranking_uses_rounded_score_cex :
    getAISuggestions sqrtAtCexNorms "a"
      [⟨"a", "A", [], [1, 0]⟩, ⟨"b", "B", [], [540, 629]⟩,
       ⟨"c", "C", [], [969, 1120]⟩] [] =
      [⟨"b", "B", 13 / 20⟩, ⟨"c", "C", 13 / 20⟩]
    ∧ cosineSimilarityLenient sqrtAtCexNorms [(1 : ℚ), 0] [540, 629] = 540 / 829
    ∧ cosineSimilarityLenient sqrtAtCexNorms [(1 : ℚ), 0] [969, 1120] = 969 / 1481
    ∧ (540 : ℚ) / 829 < 969 / 1481
    ∧ sqrtAtCexNorms 1 * sqrtAtCexNorms 1 = 1
    ∧ sqrtAtCexNorms 687241 * sqrtAtCexNorms 687241 = 687241
    ∧ sqrtAtCexNorms 2193361 * sqrtAtCexNorms 2193361 = 2193361 := by
  refine ⟨?_, ?_, ?_, by norm_num, ?_, ?_, ?_⟩
  · norm_num [getAISuggestions, collectSuggestions, sortByScoreDesc,
      cosineSimilarityLenient, cosineCore, dotProduct, sqrtAtCexNorms,
      simThreshold, maxAISuggestions, round2, jsRound]
    simp [insertScoreDesc]
  · norm_num [cosineSimilarityLenient, cosineCore, dotProduct, sqrtAtCexNorms]
  · norm_num [cosineSimilarityLenient, cosineCore, dotProduct, sqrtAtCexNorms]
  · norm_num [sqrtAtCexNorms]
  · norm_num [sqrtAtCexNorms]
  · norm_num [sqrtAtCexNorms]

/-- The spec-side candidate list: the other embedding records, not already
explicitly linked, with similarity at least the threshold, each rendered
with its 2-decimal rounded similarity as score. -/
def specCandidates (sqrt : ℚ → ℚ) (cur : EmbeddingData) (slug : String)
    (links : List String) (embs : List EmbeddingData) : List Suggestion :=
  (embs.filter (fun o => o.slug ≠ slug ∧ o.slug ∉ links ∧
      simThreshold ≤ cosineSimilarityLenient sqrt cur.embedding o.embedding)).map
    (fun o => ⟨o.slug, o.title,
      round2 (cosineSimilarityLenient sqrt cur.embedding o.embedding)⟩)

lemma collectSuggestions_eq_specCandidates (sqrt : ℚ → ℚ) (cur : EmbeddingData)
    (slug : String) (links : List String) :
    ∀ embs : List EmbeddingData,
      collectSuggestions sqrt cur slug links embs =
        specCandidates sqrt cur slug links embs := by
  intro embs
  induction embs with
  | nil => rfl
  | cons other rest ih =>
    rw [collectSuggestions]
    by_cases h1 : other.slug = slug
    · rw [if_pos h1, ih]
      simp [specCandidates, List.filter_cons, h1]
    · rw [if_neg h1]
      by_cases h2 : links.contains other.slug
      · rw [if_pos h2, ih]
        have hm : other.slug ∈ links := by simpa using h2
        simp [specCandidates, List.filter_cons, h1, hm]
      · rw [if_neg h2]
        have hm : other.slug ∉ links := by simpa using h2
        by_cases h3 : simThreshold ≤
            cosineSimilarityLenient sqrt cur.embedding other.embedding
        · rw [if_pos h3, ih]
          simp [specCandidates, List.filter_cons, h1, hm, h3]
        · rw [if_neg h3, ih]
          simp [specCandidates, List.filter_cons, h1, hm, h3]

/-- Descending order by rounded score. -/
def scoreGE (a b : Suggestion) : Prop := b.score ≤ a.score

lemma insertScoreDesc_mem {x z : Suggestion} {l : List Suggestion}
    (h : z ∈ insertScoreDesc x l) : z = x ∨ z ∈ l := by
  induction l with
  | nil => simpa [insertScoreDesc] using h
  | cons y ys ih =>
    rw [insertScoreDesc] at h
    by_cases hc : x.score ≤ y.score
    · rw [if_pos hc] at h
      rcases List.mem_cons.mp h with rfl | h2
      · exact Or.inr (List.mem_cons_self _ _)
      · rcases ih h2 with h3 | h3
        · exact Or.inl h3
        · exact Or.inr (List.mem_cons_of_mem _ h3)
    · rw [if_neg hc] at h
      rcases List.mem_cons.mp h with rfl | h2
      · exact Or.inl rfl
      · exact Or.inr h2

lemma insertScoreDesc_sorted {l : List Suggestion} (hl : l.Pairwise scoreGE)
    (x : Suggestion) : (insertScoreDesc x l).Pairwise scoreGE := by
  induction l with
  | nil => simp [insertScoreDesc, List.Pairwise.nil]
  | cons y ys ih =>
    rw [insertScoreDesc]
    rcases List.pairwise_cons.mp hl with ⟨hy, hys⟩
    by_cases hc : x.score ≤ y.score
    · rw [if_pos hc]
      refine List.pairwise_cons.mpr ⟨?_, ih hys⟩
      intro z hz
      rcases insertScoreDesc_mem hz with rfl | h2
      · exact hc
      · exact hy z h2
    · rw [if_neg hc]
      have hxy : y.score ≤ x.score := le_of_not_le hc
      refine List.pairwise_cons.mpr ⟨?_, hl⟩
      intro z hz
      rcases List.mem_cons.mp hz with rfl | h2
      · exact hxy
      · exact le_trans (hy z h2) hxy

lemma sortByScoreDesc_sorted (l : List Suggestion) :
    (sortByScoreDesc l).Pairwise scoreGE := by
  rw [sortByScoreDesc]
  have hgen : ∀ (l : List Suggestion) (acc : List Suggestion),
      acc.Pairwise scoreGE →
      (l.foldl (fun acc x => insertScoreDesc x acc) acc).Pairwise scoreGE := by
    intro l
    induction l with
    | nil => intro acc h; exact h
    | cons x rest ih =>
      intro acc h
      simp only [List.foldl_cons]
      exact ih _ (insertScoreDesc_sorted h x)
  exact hgen l [] List.Pairwise.nil

lemma getAISuggestions_sorted (sqrt : ℚ → ℚ) (slug : String)
    (embs : List EmbeddingData) (links : List String) :
    (getAISuggestions sqrt slug embs links).Pairwise scoreGE := by
  rw [getAISuggestions]
  split
  · exact List.Pairwise.nil
  · exact (sortByScoreDesc_sorted _).sublist (List.take_sublist _ _)


lemma pushExplicitRef_aiSuggested (bl : String → Option BacklinksEntry)
    (target : String) (r : ExplicitRef) (s : String) :
    ((pushExplicitRef bl target r) s).map BacklinksEntry.aiSuggested =
      (bl s).map BacklinksEntry.aiSuggested := by
  rw [pushExplicitRef]
  rcases hb : bl target with _ | entry
  · rfl
  · by_cases hs : s = target
    · subst hs
      simp [hb]
    · simp [hs]

lemma foldl_preserves_aiSuggested {β : Type}
    (f : (String → Option BacklinksEntry) → β → (String → Option BacklinksEntry))
    (hf : ∀ bl b s, ((f bl b) s).map BacklinksEntry.aiSuggested =
      (bl s).map BacklinksEntry.aiSuggested) (l : List β) :
    ∀ (bl : String → Option BacklinksEntry) (s : String),
      ((l.foldl f bl) s).map BacklinksEntry.aiSuggested =
        (bl s).map BacklinksEntry.aiSuggested := by
  induction l with
  | nil => intro bl s; rfl
  | cons b rest ih =>
    intro bl s
    simp only [List.foldl_cons]
    rw [ih (f bl b) s, hf bl b s]

lemma backlinksPhase_aiSuggested (posts : List PostData)
    (aiMap : String → List Suggestion) (s : String) :
    ((backlinksPhase posts aiMap) s).map BacklinksEntry.aiSuggested =
      ((backlinksInit posts aiMap) s).map BacklinksEntry.aiSuggested := by
  rw [backlinksPhase]
  refine foldl_preserves_aiSuggested _ ?_ posts _ s
  intro bl post s2
  exact foldl_preserves_aiSuggested _
    (fun bl2 t s3 => pushExplicitRef_aiSuggested bl2 t _ s3)
    post.explicitLinks bl s2

lemma backlinksInitFold_not_mem (aiMap : String → List Suggestion)
    (posts : List PostData) (s : String) (hs : s ∉ posts.map PostData.slug) :
    ∀ base : String → Option BacklinksEntry,
      (posts.foldl (backlinksInitStep aiMap) base) s = base s := by
  induction posts with
  | nil => intro base; rfl
  | cons q rest ih =>
    intro base
    simp only [List.map_cons, List.mem_cons] at hs
    push_neg at hs
    simp only [List.foldl_cons]
    rw [ih hs.2]
    simp [backlinksInitStep, hs.1]

lemma backlinksInitFold_lookup (aiMap : String → List Suggestion) :
    ∀ (posts : List PostData) (base : String → Option BacklinksEntry)
      (p : PostData), p ∈ posts → (posts.map PostData.slug).Nodup →
      (posts.foldl (backlinksInitStep aiMap) base) p.slug =
        some ⟨[], aiMap p.slug⟩ := by
  intro posts
  induction posts with
  | nil => intro base p hp; simp at hp
  | cons q rest ih =>
    intro base p hp hnd
    simp only [List.map_cons, List.nodup_cons] at hnd
    simp only [List.foldl_cons]
    rcases List.mem_cons.mp hp with rfl | hmem
    · rw [backlinksInitFold_not_mem aiMap rest p.slug hnd.1]
      simp [backlinksInitStep]
    · exact ih _ p hmem hnd.2

lemma aiPhaseFold_aiMap_not_mem (sqrt : ℚ → ℚ) (embeddings : List EmbeddingData)
    (posts : List PostData) (s : String) (hs : s ∉ posts.map PostData.slug) :
    ∀ acc : (List LinksEdge × (String → Nat)) × (String → List Suggestion),
      (posts.foldl (aiStep sqrt embeddings) acc).2 s = acc.2 s := by
  induction posts with
  | nil => intro acc; rfl
  | cons q rest ih =>
    intro acc
    simp only [List.map_cons, List.mem_cons] at hs
    push_neg at hs
    simp only [List.foldl_cons]
    rw [ih hs.2]
    simp [aiStep, hs.1]

lemma aiPhaseFold_aiMap_lookup (sqrt : ℚ → ℚ) (embeddings : List EmbeddingData) :
    ∀ (posts : List PostData)
      (acc : (List LinksEdge × (String → Nat)) × (String → List Suggestion))
      (p : PostData), p ∈ posts → (posts.map PostData.slug).Nodup →
      (posts.foldl (aiStep sqrt embeddings) acc).2 p.slug =
        getAISuggestions sqrt p.slug embeddings p.explicitLinks := by
  intro posts
  induction posts with
  | nil => intro acc p hp; simp at hp
  | cons q rest ih =>
    intro acc p hp hnd
    simp only [List.map_cons, List.nodup_cons] at hnd
    simp only [List.foldl_cons]
    rcases List.mem_cons.mp hp with rfl | hmem
    · rw [aiPhaseFold_aiMap_not_mem sqrt embeddings rest p.slug hnd.1]
      simp [aiStep]
    · exact ih _ p hmem hnd.2

lemma buildLinksData_backlinks_aiSuggested (sqrt : ℚ → ℚ)
    (posts : List PostData) (embeddings : List EmbeddingData) (p : PostData)
    (hp : p ∈ posts) (hnd : (posts.map PostData.slug).Nodup) :
    ((buildLinksData sqrt posts embeddings).backlinks p.slug).map
        BacklinksEntry.aiSuggested =
      some (getAISuggestions sqrt p.slug embeddings p.explicitLinks) := by
  show ((backlinksPhase posts
    (aiPhase sqrt posts embeddings
      (explicitPhase posts (posts.map PostData.slug))).2) p.slug).map
      BacklinksEntry.aiSuggested = _
  rw [backlinksPhase_aiSuggested, backlinksInit,
    backlinksInitFold_lookup _ posts _ p hp hnd]
  rw [aiPhase, aiPhaseFold_aiMap_lookup sqrt embeddings posts _ p hp hnd]
  rfl

/-- **C6** (amended): for a document with an embedding record, the AI
suggestion list consists exactly of the other embedding records (possibly
including stale cache records), not already explicitly linked from the
document, with raw similarity at least the 0.65 threshold, carrying the
2-decimal rounded similarity as score, ranked descending by that rounded
score (stable — ties keep embedding-cache order) and truncated to the top 5;
and (for posts with pairwise-distinct slugs) this same per-document list is
emitted verbatim as the document's `aiSuggested` backlinks entry. -/
theorem ai_suggestions_ranked_by_rounded_score_and_carried
    (sqrt : ℚ → ℚ) (slug : String) (embs : List EmbeddingData)
    (links : List String) (cur : EmbeddingData)
    (hfind : embs.find? (fun e => e.slug == slug) = some cur)
    (posts : List PostData) (p : PostData) (hp : p ∈ posts)
    (hnd : (posts.map PostData.slug).Nodup) (embeddings : List EmbeddingData) :
    getAISuggestions sqrt slug embs links =
      (sortByScoreDesc (specCandidates sqrt cur slug links embs)).take
        maxAISuggestions
    ∧ (getAISuggestions sqrt slug embs links).Pairwise scoreGE
    ∧ ((buildLinksData sqrt posts embeddings).backlinks p.slug).map
        BacklinksEntry.aiSuggested =
      some (getAISuggestions sqrt p.slug embeddings p.explicitLinks) := by
  refine ⟨?_, getAISuggestions_sorted sqrt slug embs links,
    buildLinksData_backlinks_aiSuggested sqrt posts embeddings p hp hnd⟩
  rw [getAISuggestions, hfind]
  show (sortByScoreDesc (collectSuggestions sqrt cur slug links embs)).take
    maxAISuggestions = _
  rw [collectSuggestions_eq_specCandidates]

/-- Witness for the amended C6 at a two-record cache and two posts. -/
theorem ai_suggestions_ranked_by_rounded_score_and_carried_witness :
    getAISuggestions (fun _ => 1) "a"
        [⟨"a", "A", [], [1]⟩, ⟨"b", "B", [], [1]⟩] [] =
      (sortByScoreDesc (specCandidates (fun _ => 1) ⟨"a", "A", [], [1]⟩ "a" []
        [⟨"a", "A", [], [1]⟩, ⟨"b", "B", [], [1]⟩])).take maxAISuggestions
    ∧ (getAISuggestions (fun _ => 1) "a"
        [⟨"a", "A", [], [1]⟩, ⟨"b", "B", [], [1]⟩] []).Pairwise scoreGE
    ∧ ((buildLinksData (fun _ => 1)
        [⟨"a", "A", [], []⟩, ⟨"b", "B", [], []⟩]
        [⟨"a", "A", [], [1]⟩, ⟨"b", "B", [], [1]⟩]).backlinks "a").map
        BacklinksEntry.aiSuggested =
      some (getAISuggestions (fun _ => 1) "a"
        [⟨"a", "A", [], [1]⟩, ⟨"b", "B", [], [1]⟩] []) :=
  ai_suggestions_ranked_by_rounded_score_and_carried (fun _ => 1) "a"
    [⟨"a", "A", [], [1]⟩, ⟨"b", "B", [], [1]⟩] [] ⟨"a", "A", [], [1]⟩ rfl
    [⟨"a", "A", [], []⟩, ⟨"b", "B", [], []⟩] ⟨"a", "A", [], []⟩ (by decide)
    (by decide) [⟨"a", "A", [], [1]⟩, ⟨"b", "B", [], [1]⟩]

end TechBlog
